import Mathlib

/-! Sudoku solver: validator, backtracking search, parser and renderer.

A shallow embedding of `sudoku/sudoku.go`.  A `Grid` is the Go array
`[9][9]int`; the solver's in-place mutation is modelled by passing the grid
through every call and returning the grid that the call leaves behind.
-/

set_option autoImplicit false

namespace Sudoku

/-! ## Data model -/

/-- The constant `size` of the source. -/
abbrev size : Nat := 9

/-- The Go type `Grid [size][size]int`: a cell for every row and column index
in `0..8`; the value `0` marks an empty cell. -/
abbrev Grid : Type := Fin size → Fin size → Int

/-- The assignment `grid[row][col] = v`. -/
def Grid.set (g : Grid) (row col : Fin size) (v : Int) : Grid :=
  fun r c => if r = row ∧ c = col then v else g r c

/-- The indices `0, 1, ..., 8` in the order a `for i := 0; i < size; i++` loop
visits them. -/
def indices : List (Fin size) := List.finRange size

/-- The offsets `0, 1, 2` of the loops that walk a 3x3 box. -/
def offsets : List (Fin 3) := List.finRange 3

/-- The quotient `i/3` of an index, which is `0`, `1` or `2`. -/
def div3 (i : Fin size) : Fin 3 :=
  ⟨i.val / 3, by have := i.isLt; simp only [size] at this; omega⟩

/-- The remainder `i%3` of an index. -/
def mod3 (i : Fin size) : Fin 3 :=
  ⟨i.val % 3, by omega⟩

/-- The index `q*3 + k` of a box loop that starts at `q*3`. -/
def boxIdx (q k : Fin 3) : Fin size :=
  ⟨q.val * 3 + k.val, by have := k.isLt; have := q.isLt; simp only [size]; omega⟩

/-- The cells visited by the nested loops
`for r := startRow; r < startRow+3; r++ { for c := startCol; c < startCol+3; c++`
with `startRow = qr*3` and `startCol = qc*3`, in visiting order. -/
def boxCells (qr qc : Fin 3) : List (Fin size × Fin size) :=
  offsets.flatMap (fun i => offsets.map (fun j => (boxIdx qr i, boxIdx qc j)))

/-- The grid whose cells are all zero. -/
def emptyGrid : Grid := fun _ _ => 0

/-! ## Validator -/

/-- The errors built by `fmt.Errorf` in the validator:
`"invalid number %d at position (%d,%d)"`, `"duplicate %d in row %d"`,
`"duplicate %d in column %d"` and `"duplicate %d in box (%d,%d)"`. -/
inductive ValidateError where
  | invalidNumber (num : Int) (row col : Nat)
  | duplicateRow (num : Int) (row : Nat)
  | duplicateColumn (num : Int) (col : Nat)
  | duplicateBox (num : Int) (boxRow boxCol : Nat)
  deriving DecidableEq, Repr

/-- The loop of `validateRow` over the remaining columns; `seen` holds the
keys of the map `seen` that are set to `true`. -/
def validateRowLoop (g : Grid) (row : Fin size) :
    List (Fin size) → List Int → Option ValidateError
  | [], _ => none
  | col :: rest, seen =>
    let num := g row col
    if num = 0 then validateRowLoop g row rest seen
    else if num < 1 ∨ num > size then
      some (ValidateError.invalidNumber num row.val col.val)
    else if num ∈ seen then some (ValidateError.duplicateRow num row.val)
    else validateRowLoop g row rest (num :: seen)

/-- The function `validateRow`; `none` is the `nil` error. -/
def validateRow (g : Grid) (row : Fin size) : Option ValidateError :=
  validateRowLoop g row indices []

/-- The loop of `validateColumn` over the remaining rows. -/
def validateColumnLoop (g : Grid) (col : Fin size) :
    List (Fin size) → List Int → Option ValidateError
  | [], _ => none
  | row :: rest, seen =>
    let num := g row col
    if num = 0 then validateColumnLoop g col rest seen
    else if num ∈ seen then some (ValidateError.duplicateColumn num col.val)
    else validateColumnLoop g col rest (num :: seen)

/-- The function `validateColumn`. -/
def validateColumn (g : Grid) (col : Fin size) : Option ValidateError :=
  validateColumnLoop g col indices []

/-- The nested loops of `validateBox` over the remaining cells of the box. -/
def validateBoxLoop (g : Grid) (boxIndex : Fin size) :
    List (Fin size × Fin size) → List Int → Option ValidateError
  | [], _ => none
  | (row, col) :: rest, seen =>
    let num := g row col
    if num = 0 then validateBoxLoop g boxIndex rest seen
    else if num ∈ seen then
      some (ValidateError.duplicateBox num (boxIndex.val / 3) (boxIndex.val % 3))
    else validateBoxLoop g boxIndex rest (num :: seen)

/-- The function `validateBox`: `startRow = (boxIndex/3)*3` and
`startCol = (boxIndex%3)*3`. -/
def validateBox (g : Grid) (boxIndex : Fin size) : Option ValidateError :=
  validateBoxLoop g boxIndex (boxCells (div3 boxIndex) (mod3 boxIndex)) []

/-- The loop of `Validate` over the remaining indices: row `i`, then column
`i`, then box `i`, returning the first error. -/
def ValidateLoop (g : Grid) : List (Fin size) → Option ValidateError
  | [] => none
  | i :: rest =>
    match validateRow g i with
    | some e => some e
    | none =>
      match validateColumn g i with
      | some e => some e
      | none =>
        match validateBox g i with
        | some e => some e
        | none => ValidateLoop g rest

/-- The function `Validate`; `none` is the `nil` error (the grid is accepted). -/
def Validate (g : Grid) : Option ValidateError :=
  ValidateLoop g indices

/-! ## Solver -/

/-- The method `isValid`: `num` occurs neither in row `row`, nor in column
`col`, nor in the 3x3 box starting at `((row/3)*3, (col/3)*3)`. -/
def isValid (g : Grid) (row col : Fin size) (num : Int) : Bool :=
  indices.all (fun c => g row c != num) &&
  indices.all (fun r => g r col != num) &&
  (boxCells (div3 row) (div3 col)).all (fun p => g p.1 p.2 != num)

/-- The method `findEmptyCell`: the first cell holding `0` in row-major order,
or `(-1, -1)` when there is none. -/
def findEmptyCell (g : Grid) : Int × Int :=
  match indices.findSome? (fun r =>
      indices.findSome? (fun c => if g r c = 0 then some (r, c) else none)) with
  | some (r, c) => ((r.val : Int), (c.val : Int))
  | none => (-1, -1)

/-- An `int` used as an array index: `none` when it is outside `0..8`, where
the Go runtime panics. -/
def toIndex (i : Int) : Option (Fin size) :=
  if h : 0 ≤ i ∧ i < size then some ⟨i.toNat, by have := h.1; have := h.2; omega⟩
  else none

/-- The candidates `1, 2, ..., 9` in the order of the loop
`for num := 1; num <= size; num++`. -/
def candidates : List Int := [1, 2, 3, 4, 5, 6, 7, 8, 9]

/-- The candidate loop of `Solve` over the remaining candidates.  `rec` stands
for the recursive call `s.Solve()`; the grid a failed call leaves behind is the
one that `s.grid[row][col] = 0` is applied to. -/
def solveLoop (rec : Grid → Option (Bool × Grid)) (row col : Fin size) :
    List Int → Grid → Option (Bool × Grid)
  | [], g => some (false, g)
  | num :: rest, g =>
    if isValid g row col num then
      match rec (g.set row col num) with
      | none => none
      | some (true, g') => some (true, g')
      | some (false, g') => solveLoop rec row col rest (g'.set row col 0)
    else solveLoop rec row col rest g

/-- The method `Solve`, with a bound `fuel` on the depth of nested calls.  The
result is the returned boolean together with the grid left in place; `none`
means that the depth bound was reached or that an index was out of range. -/
def Solve : Nat → Grid → Option (Bool × Grid)
  | 0 => fun _ => none
  | fuel + 1 => fun g =>
    let (row, col) := findEmptyCell g
    if row = -1 ∧ col = -1 then some (true, g)
    else
      match toIndex row, toIndex col with
      | some r, some c => solveLoop (Solve fuel) r c candidates g
      | _, _ => none

/-! ## Parser and renderer

Strings are lists of characters.  `strings.Split(input, ",")` is
`List.splitOn`, and `fmt.Sscanf(v, "%d", &num)` follows the scanner of the
standard library `fmt`: skip leading space, accept one sign, read the longest
run of decimal digits, and convert it with `strconv.ParseInt`; what follows the
digits is left unread. -/

/-- The least value of the Go type `int` on a 64-bit platform. -/
def minInt : Int := -(2 ^ 63)

/-- The greatest value of the Go type `int` on a 64-bit platform. -/
def maxInt : Int := 2 ^ 63 - 1

/-- The errors `ParseInput` can return: its own `"invalid input length"`, and
those of `fmt.Sscanf`: `"unexpected newline"`, `io.EOF`,
`"expected integer"` and the range error of `strconv.ParseInt`.  The last
constructor stands for the run-time panic on an array index outside `0..8`. -/
inductive ParseError where
  | invalidInputLength
  | unexpectedNewline
  | eof
  | expectedInteger
  | valueOutOfRange
  | indexOutOfRange
  deriving DecidableEq, Repr

/-- The function `isSpace` of `fmt`: the code points of its table `space`. -/
def isSpace (ch : Char) : Bool :=
  let n := ch.toNat
  (0x09 ≤ n && n ≤ 0x0d) || n == 0x20 || n == 0x85 || n == 0xa0 || n == 0x1680 ||
    (0x2000 ≤ n && n ≤ 0x200a) || n == 0x2028 || n == 0x2029 || n == 0x202f ||
    n == 0x205f || n == 0x3000

/-- The method `SkipSpace` of the scanner in the mode of `Sscanf`, where a
newline is not space: it is an error to meet one; a carriage return is skipped
like any other space. -/
def skipSpace : List Char → Except ParseError (List Char)
  | [] => Except.ok []
  | ch :: rest =>
    if ch = '\n' then Except.error ParseError.unexpectedNewline
    else if isSpace ch then skipSpace rest
    else Except.ok (ch :: rest)

/-- The value of a decimal digit. -/
def digitValue (ch : Char) : Nat := ch.toNat - 48

/-- The call `strconv.ParseInt(tok, 10, 64)` on a token made of an accepted
sign and a run of decimal digits. -/
def parseInt (neg : Bool) (digits : List Char) : Except ParseError Int :=
  let n : Nat := digits.foldl (fun acc ch => acc * 10 + digitValue ch) 0
  if neg then
    if n ≤ 2 ^ 63 then Except.ok (-(n : Int)) else Except.error ParseError.valueOutOfRange
  else
    if n < 2 ^ 63 then Except.ok (n : Int) else Except.error ParseError.valueOutOfRange

/-- The method `scanInt` of the scanner for the verb `%d`: the value read and
the input left unread. -/
def scanInt (s : List Char) : Except ParseError (Int × List Char) :=
  match skipSpace s with
  | Except.error e => Except.error e
  | Except.ok [] => Except.error ParseError.eof
  | Except.ok (ch :: rest) =>
    let neg : Bool := ch = '-'
    let body := if ch = '+' ∨ ch = '-' then rest else ch :: rest
    match body with
    | [] => Except.error ParseError.eof
    | d :: _ =>
      if d.isDigit then
        match parseInt neg (body.takeWhile Char.isDigit) with
        | Except.error e => Except.error e
        | Except.ok n => Except.ok (n, body.dropWhile Char.isDigit)
      else Except.error ParseError.expectedInteger

/-- The call `fmt.Sscanf(v, "%d", &num)`: the error, or the value stored in
`num`.  The input after the number is not looked at. -/
def sscanfInt (v : List Char) : Except ParseError Int :=
  match skipSpace v with
  | Except.error e => Except.error e
  | Except.ok s =>
    match scanInt s with
    | Except.error e => Except.error e
    | Except.ok (n, _) => Except.ok n

/-- The loop `for i, v := range values` of `ParseInput` over the remaining
tokens, `i` being the index of the first of them. -/
def parseLoop : List (List Char) → Nat → Grid → Except ParseError Grid
  | [], _, grid => Except.ok grid
  | v :: rest, i, grid =>
    match sscanfInt v with
    | Except.error e => Except.error e
    | Except.ok num =>
      match toIndex ((i / size : Nat) : Int), toIndex ((i % size : Nat) : Int) with
      | some row, some col => parseLoop rest (i + 1) (grid.set row col num)
      | _, _ => Except.error ParseError.indexOutOfRange

/-- The row `i/9` of the cell that holds the `i`-th token. -/
def rowOf (i : Nat) (hi : i < 81) : Fin size :=
  ⟨i / 9, by simp only [size]; omega⟩

/-- The column `i%9` of the cell that holds the `i`-th token. -/
def colOf (i : Nat) : Fin size :=
  ⟨i % 9, by simp only [size]; omega⟩

/-- The function `ParseInput`; the grid returned next to an error is dropped. -/
def ParseInput (input : List Char) : Except ParseError Grid :=
  let values := input.splitOn ','
  if values.length ≠ size * size then Except.error ParseError.invalidInputLength
  else parseLoop values 0 emptyGrid

/-- The text `fmt.Sprintf("%d", n)`: plain decimal digits, after a minus sign
for a negative number. -/
def formatInt (n : Int) : List Char :=
  if n < 0 then '-' :: Nat.toDigits 10 n.natAbs else Nat.toDigits 10 n.natAbs

/-- The inner loop of `PrintGrid` over the remaining columns of row `r`,
appending to `gridStr`. -/
def printRowLoop (g : Grid) (r : Fin size) : List (Fin size) → List Char → List Char
  | [], gridStr => gridStr
  | c :: rest, gridStr =>
    let gridStr := gridStr ++ formatInt (g r c)
    let gridStr := if c.val < size - 1 then gridStr ++ [','] else gridStr
    printRowLoop g r rest gridStr

/-- The outer loop of `PrintGrid` over the remaining rows. -/
def printLoop (g : Grid) : List (Fin size) → List Char → List Char
  | [], gridStr => gridStr
  | r :: rest, gridStr => printLoop g rest (printRowLoop g r indices gridStr ++ ['\n'])

/-- The string `gridStr` built by `PrintGrid`. -/
def gridText (g : Grid) : List Char := printLoop g indices []

/-- The method `PrintGrid`: the message handed to the logger. -/
def PrintGrid (g : Grid) : List Char := "Sudoku Grid:\n".toList ++ gridText g

/-- The strings joined by `','`. -/
def joinComma (toks : List (List Char)) : List Char := [','].intercalate toks

/-- A valid integer literal: an optional sign followed by one or more decimal
digits and nothing else. -/
def isIntLiteral (tok : List Char) : Bool :=
  match tok with
  | [] => false
  | ch :: rest =>
    if ch = '+' ∨ ch = '-' then !rest.isEmpty && rest.all Char.isDigit
    else (ch :: rest).all Char.isDigit

/-- The text in which the first `n` newlines of `s` are replaced by `','`. -/
def commaForNewline : Nat → List Char → List Char
  | _, [] => []
  | 0, ch :: rest => ch :: rest
  | n + 1, ch :: rest =>
    if ch = '\n' then ',' :: commaForNewline n rest
    else ch :: commaForNewline (n + 1) rest

/-- The input `5x,0,0,...,0` of 81 tokens, whose first token `5x` is not an
integer literal and whose 80 other tokens are `0`. -/
def trailingGarbageInput : List Char :=
  "5x".toList ++ (List.replicate 80 ",0".toList).flatten

/-- A sequence of 81 integers with negative values, values above nine and
repeated values. -/
def wideValues : List Int :=
  [-7, 12, 12, 0, 5, 5, 9223372036854775807, -9223372036854775808, 3] ++
    List.replicate 72 10

/-! ## Properties of grids named by the specification -/

/-- Every non-zero cell value lies in `[1,9]`. -/
def InRange (g : Grid) : Prop :=
  ∀ r c, g r c ≠ 0 → 1 ≤ g r c ∧ g r c ≤ 9

/-- No row holds the same non-zero value at two different cells. -/
def RowsDistinct (g : Grid) : Prop :=
  ∀ r c c', c ≠ c' → g r c ≠ 0 → g r c ≠ g r c'

/-- No column holds the same non-zero value at two different cells. -/
def ColsDistinct (g : Grid) : Prop :=
  ∀ c r r', r ≠ r' → g r c ≠ 0 → g r c ≠ g r' c

/-- The cells `(r, c)` and `(r', c')` lie in the same 3x3 box. -/
def SameBox (r c r' c' : Fin size) : Prop :=
  r.val / 3 = r'.val / 3 ∧ c.val / 3 = c'.val / 3

/-- No 3x3 box holds the same non-zero value at two different cells. -/
def BoxesDistinct (g : Grid) : Prop :=
  ∀ r c r' c', (r, c) ≠ (r', c') → SameBox r c r' c' → g r c ≠ 0 → g r c ≠ g r' c'

/-- A grid without a violation among its non-zero cells. -/
def Consistent (g : Grid) : Prop :=
  InRange g ∧ RowsDistinct g ∧ ColsDistinct g ∧ BoxesDistinct g

/-- Some non-zero cell is out of range, or some row, column or box holds the
same non-zero value at two different cells. -/
def Violation (g : Grid) : Prop :=
  (∃ r c, g r c ≠ 0 ∧ (g r c < 1 ∨ 9 < g r c)) ∨
  (∃ r c c', c ≠ c' ∧ g r c ≠ 0 ∧ g r c = g r c') ∨
  (∃ c r r', r ≠ r' ∧ g r c ≠ 0 ∧ g r c = g r' c) ∨
  (∃ r c r' c', (r, c) ≠ (r', c') ∧ SameBox r c r' c' ∧ g r c ≠ 0 ∧ g r c = g r' c')

/-- A fully filled legal grid: no zero cell, every cell in `1..9`, and no row,
column or 3x3 box contains the same value twice. -/
def Solved (g : Grid) : Prop :=
  (∀ r c, g r c ≠ 0) ∧ (∀ r c, 1 ≤ g r c ∧ g r c ≤ 9) ∧
  (∀ r c c', c ≠ c' → g r c ≠ g r c') ∧
  (∀ c r r', r ≠ r' → g r c ≠ g r' c) ∧
  (∀ r c r' c', (r, c) ≠ (r', c') → SameBox r c r' c' → g r c ≠ g r' c')

/-- The grid `h` agrees with `g` on every cell that is non-zero in `g`. -/
def Agrees (g h : Grid) : Prop :=
  ∀ r c, g r c ≠ 0 → h r c = g r c

/-- The number of zero cells of a grid. -/
def zeroCount (g : Grid) : Nat :=
  (Finset.univ.filter (fun p : Fin size × Fin size => g p.1 p.2 = 0)).card

/-- The first non-zero value of a list that occurs earlier in it or in `seen`:
the scan shared by the three group validators. -/
def firstDup : List Int → List Int → Option Int
  | [], _ => none
  | v :: rest, seen =>
    if v = 0 then firstDup rest seen
    else if v ∈ seen then some v
    else firstDup rest (v :: seen)

/-! ## Properties of the recursive call used by the loop lemmas -/

/-- A call that reports failure leaves its grid as it found it. -/
def Restores (rec : Grid → Option (Bool × Grid)) : Prop :=
  ∀ x x', rec x = some (false, x') → x' = x

/-- What a successful call guarantees about the grid it leaves. -/
def SoundRec (rec : Grid → Option (Bool × Grid)) : Prop :=
  ∀ x x', rec x = some (true, x') →
    Agrees x x' ∧ (∀ r c, x' r c ≠ 0) ∧ (Consistent x → Consistent x')

/-- A call that reports failure was made on a grid without a legal completion. -/
def CompleteRec (rec : Grid → Option (Bool × Grid)) : Prop :=
  ∀ x x', rec x = some (false, x') → ¬ ∃ h, Solved h ∧ Agrees x h

/-- What the scanner needs to know about a character of a rendered number. -/
def PlainDigit (ch : Char) : Prop :=
  ch.isDigit = true ∧ ch ≠ '\n' ∧ isSpace ch = false ∧ ch ≠ '+' ∧ ch ≠ '-' ∧ ch ≠ ','

/-! ## Concrete grids -/

/-- The grid whose rows are the given lists; cells that are not listed are zero. -/
def gridOfRows (rows : List (List Int)) : Grid :=
  fun r c => (rows.getD r.val []).getD c.val 0

/-- A grid on which the search fails after one backtrack: cell `(0,0)` can
only take `2`, after which cell `(0,1)` has no candidate left. -/
def deadEndGrid : Grid := gridOfRows
  [[0, 0, 3, 4, 5, 6, 7, 8, 9],
   [1, 0, 0, 0, 0, 0, 0, 0, 0]]

/-- The solved grid of the test `Solvable Sudoku` with its last two cells
emptied. -/
def nearlySolvedGrid : Grid := gridOfRows
  [[5, 3, 4, 6, 7, 8, 9, 1, 2],
   [6, 7, 2, 1, 9, 5, 3, 4, 8],
   [1, 9, 8, 3, 4, 2, 5, 6, 7],
   [8, 5, 9, 7, 6, 1, 4, 2, 3],
   [4, 2, 6, 8, 5, 3, 7, 9, 1],
   [7, 1, 3, 9, 2, 4, 8, 5, 6],
   [9, 6, 1, 5, 3, 7, 2, 8, 4],
   [2, 8, 7, 4, 1, 9, 6, 3, 5],
   [3, 4, 5, 2, 8, 6, 1, 0, 0]]

/-- A grid holding the negative value `-3` in its centre cell. -/
def negativeGrid : Grid := gridOfRows
  [[], [], [], [], [0, 0, 0, 0, -3]]

/-- The solved grid expected by the test `Solvable Sudoku`. -/
def solvedGrid : Grid := gridOfRows
  [[5, 3, 4, 6, 7, 8, 9, 1, 2],
   [6, 7, 2, 1, 9, 5, 3, 4, 8],
   [1, 9, 8, 3, 4, 2, 5, 6, 7],
   [8, 5, 9, 7, 6, 1, 4, 2, 3],
   [4, 2, 6, 8, 5, 3, 7, 9, 1],
   [7, 1, 3, 9, 2, 4, 8, 5, 6],
   [9, 6, 1, 5, 3, 7, 2, 8, 4],
   [2, 8, 7, 4, 1, 9, 6, 3, 5],
   [3, 4, 5, 2, 8, 6, 1, 7, 9]]

/-- A grid with two `5`s in its first row whose two zero cells can still be
filled: `nearlySolvedGrid` with the `3` of its first row replaced by `5`. -/
def duplicateRowGrid : Grid := nearlySolvedGrid.set 0 1 5

/-- A grid holding the out-of-range value `10` twice in its first column, in
rows one and two. -/
def repeatedTenGrid : Grid := gridOfRows [[], [10], [10]]

/-- The grid of the test `Invalid number (too large)`. -/
def tooLargeGrid : Grid := gridOfRows [[10]]

/-! ## Further notions used by the claims -/

/-- The box index `(row/3)*3 + col/3` of a cell. -/
def boxOf (row col : Fin size) : Fin size :=
  ⟨(row.val / 3) * 3 + col.val / 3, by
    have := row.isLt; have := col.isLt; simp only [size] at *; omega⟩

/-- The cell `(r', c')` comes before `(r, c)` in row-major order. -/
def Before (r' c' r c : Fin size) : Prop :=
  r' < r ∨ (r' = r ∧ c' < c)

/-- The row-major flattening of a grid: row 0 left to right, then row 1, and
so on. -/
def rowMajor (g : Grid) : List Int :=
  (indices.map (fun r => indices.map (fun c => g r c))).flatten

/-- The flattening of `g` is lexicographically at most that of `h`. -/
def LexLE (g h : Grid) : Prop :=
  rowMajor g = rowMajor h ∨ List.Lex (fun a b : Int => a < b) (rowMajor g) (rowMajor h)

/-- The grids are equal, or at the first cell in row-major order where they
differ `g` holds the smaller value. -/
def CellLE (g h : Grid) : Prop :=
  (∀ r c, g r c = h r c) ∨
    ∃ r c, g r c < h r c ∧ ∀ r' c', Before r' c' r c → g r' c' = h r' c'

/-- A successful call leaves a grid that is least among the legal completions. -/
def LeastRec (rec : Grid → Option (Bool × Grid)) : Prop :=
  ∀ x x', rec x = some (true, x') → ∀ h, Solved h → Agrees x h → CellLE x' h

/-- What an error of `Validate` reports about the grid: the named value is
held by two different cells of the named row, column or box (the box whose
top-left cell is `(3*boxRow, 3*boxCol)`), or the named cell holds the named
value, which is non-zero and outside `[1,9]`. -/
def Reported (g : Grid) : ValidateError → Prop
  | ValidateError.invalidNumber num row col =>
    ∃ r c : Fin size, r.val = row ∧ c.val = col ∧ g r c = num ∧ num ≠ 0 ∧
      (num < 1 ∨ 9 < num)
  | ValidateError.duplicateRow v row =>
    v ≠ 0 ∧ ∃ r c c' : Fin size, r.val = row ∧ c ≠ c' ∧ g r c = v ∧ g r c' = v
  | ValidateError.duplicateColumn v col =>
    v ≠ 0 ∧ ∃ c r r' : Fin size, c.val = col ∧ r ≠ r' ∧ g r c = v ∧ g r' c = v
  | ValidateError.duplicateBox v boxRow boxCol =>
    v ≠ 0 ∧ ∃ r c r' c' : Fin size, (r, c) ≠ (r', c') ∧
      (3 * boxRow ≤ r.val ∧ r.val < 3 * boxRow + 3) ∧
      (3 * boxCol ≤ c.val ∧ c.val < 3 * boxCol + 3) ∧
      (3 * boxRow ≤ r'.val ∧ r'.val < 3 * boxRow + 3) ∧
      (3 * boxCol ≤ c'.val ∧ c'.val < 3 * boxCol + 3) ∧
      g r c = v ∧ g r' c' = v

/-- The method `Solve` in which every call, the recursive ones included, first
checks that `Validate` accepts the grid it is made on and gives no result
otherwise. -/
def SolveChecked : Nat → Grid → Option (Bool × Grid)
  | 0 => fun _ => none
  | fuel + 1 => fun g =>
    if Validate g = none then
      let (row, col) := findEmptyCell g
      if row = -1 ∧ col = -1 then some (true, g)
      else
        match toIndex row, toIndex col with
        | some r, some c => solveLoop (SolveChecked fuel) r c candidates g
        | _, _ => none
    else none

/-! ## The validator accepts exactly the consistent grids -/

theorem firstDup_eq_none (vals seen : List Int) :
    firstDup vals seen = none ↔
      (∀ v ∈ vals, v ≠ 0 → v ∉ seen) ∧ vals.Pairwise (fun a b => a ≠ 0 → a ≠ b) := by
  induction vals generalizing seen with
  | nil => simp [firstDup]
  | cons v rest ih =>
    unfold firstDup
    by_cases hv : v = 0
    · subst hv
      simp only [if_true, ih, List.mem_cons, forall_eq_or_imp, ne_eq, not_true_eq_false,
        false_implies, true_and, List.pairwise_cons, implies_true]
    · by_cases hs : v ∈ seen
      · simp only [hv, if_false, hs, if_true, List.mem_cons, forall_eq_or_imp]
        constructor
        · intro h; cases h
        · rintro ⟨⟨h, _⟩, _⟩; exact absurd trivial (h hv)
      · simp only [hv, if_false, hs, ih, List.mem_cons, forall_eq_or_imp, List.pairwise_cons]
        constructor
        · rintro ⟨h1, h2⟩
          refine ⟨⟨fun _ => not_false, fun a ha ha0 has => (h1 a ha ha0) (Or.inr has)⟩, ?_, h2⟩
          intro a ha _ hva
          exact (h1 a ha (hva ▸ hv)) (Or.inl hva.symm)
        · rintro ⟨⟨_, h1⟩, h2, h3⟩
          refine ⟨?_, h3⟩
          intro a ha ha0 hmem
          rcases hmem with hmem | hmem
          · exact h2 a ha hv hmem.symm
          · exact h1 a ha ha0 hmem

theorem pairwise_map_distinct {α : Type} (f : α → Int) (l : List α) (hl : l.Nodup) :
    (l.map f).Pairwise (fun a b => a ≠ 0 → a ≠ b) ↔
      ∀ x ∈ l, ∀ y ∈ l, x ≠ y → f x ≠ 0 → f x ≠ f y := by
  rw [List.pairwise_map]
  constructor
  · intro h x hx y hy hxy
    have hsymm : Symmetric (fun a b : α => f a ≠ 0 → f a ≠ f b) := by
      intro a b hab hb heq
      by_cases ha : f a = 0
      · exact hb (heq.trans ha)
      · exact hab ha heq.symm
    exact h.forall hsymm hx hy hxy
  · intro h
    exact hl.pairwise_of_forall_ne h

theorem validateColumnLoop_eq (g : Grid) (col : Fin size) (rows : List (Fin size))
    (seen : List Int) :
    validateColumnLoop g col rows seen =
      (firstDup (rows.map (fun r => g r col)) seen).map
        (fun v => ValidateError.duplicateColumn v col.val) := by
  induction rows generalizing seen with
  | nil => rfl
  | cons r rest ih =>
    simp only [validateColumnLoop, List.map_cons, firstDup]
    by_cases h0 : g r col = 0
    · simp only [h0, if_true, ih]
    · by_cases hs : g r col ∈ seen
      · simp only [h0, if_false, hs, if_true, Option.map_some']
      · simp only [h0, if_false, hs, ih]

theorem validateBoxLoop_eq (g : Grid) (b : Fin size) (cells : List (Fin size × Fin size))
    (seen : List Int) :
    validateBoxLoop g b cells seen =
      (firstDup (cells.map (fun p => g p.1 p.2)) seen).map
        (fun v => ValidateError.duplicateBox v (b.val / 3) (b.val % 3)) := by
  induction cells generalizing seen with
  | nil => rfl
  | cons p rest ih =>
    obtain ⟨r, c⟩ := p
    simp only [validateBoxLoop, List.map_cons, firstDup]
    by_cases h0 : g r c = 0
    · simp only [h0, if_true, ih]
    · by_cases hs : g r c ∈ seen
      · simp only [h0, if_false, hs, if_true, Option.map_some']
      · simp only [h0, if_false, hs, ih]

theorem validateRowLoop_eq_none (g : Grid) (row : Fin size) (cols : List (Fin size))
    (seen : List Int) :
    validateRowLoop g row cols seen = none ↔
      (∀ c ∈ cols, g row c ≠ 0 → 1 ≤ g row c ∧ g row c ≤ 9) ∧
        firstDup (cols.map (fun c => g row c)) seen = none := by
  induction cols generalizing seen with
  | nil => simp [validateRowLoop, firstDup]
  | cons c rest ih =>
    simp only [validateRowLoop, List.map_cons, firstDup, List.mem_cons, forall_eq_or_imp]
    by_cases h0 : g row c = 0
    · simp only [h0, if_true, ih, ne_eq, not_true_eq_false, false_implies, true_and]
    · by_cases hr : g row c < 1 ∨ g row c > (size : Int)
      · simp only [h0, if_false, hr, if_true]
        constructor
        · intro h; cases h
        · rintro ⟨⟨h, _⟩, _⟩
          have := h h0
          simp only [size, Nat.cast_ofNat] at hr
          omega
      · have hr' : 1 ≤ g row c ∧ g row c ≤ 9 := by
          simp only [size, Nat.cast_ofNat] at hr
          omega
        by_cases hs : g row c ∈ seen
        · simp only [h0, if_false, hr, hs, if_true]
          constructor
          · intro h; cases h
          · rintro ⟨_, h⟩; cases h
        · simp only [h0, if_false, hr, hs, ih, ne_eq, not_false_eq_true, hr', and_self,
            forall_true_left, true_and]

theorem mem_indices (i : Fin size) : i ∈ indices := List.mem_finRange i

theorem nodup_indices : indices.Nodup := List.nodup_finRange size

theorem mem_boxCells (qr qc : Fin 3) (r c : Fin size) :
    (r, c) ∈ boxCells qr qc ↔ r.val / 3 = qr.val ∧ c.val / 3 = qc.val := by
  revert qr qc r c
  decide

theorem nodup_boxCells (qr qc : Fin 3) : (boxCells qr qc).Nodup := by
  revert qr qc
  decide

theorem validateRow_eq_none (g : Grid) (row : Fin size) :
    validateRow g row = none ↔
      (∀ c, g row c ≠ 0 → 1 ≤ g row c ∧ g row c ≤ 9) ∧
        ∀ c c', c ≠ c' → g row c ≠ 0 → g row c ≠ g row c' := by
  unfold validateRow
  rw [validateRowLoop_eq_none, firstDup_eq_none, pairwise_map_distinct _ _ nodup_indices]
  constructor
  · rintro ⟨h1, _, h2⟩
    exact ⟨fun c => h1 c (mem_indices c), fun c c' => h2 c (mem_indices c) c' (mem_indices c')⟩
  · rintro ⟨h1, h2⟩
    exact ⟨fun c _ => h1 c, fun _ _ _ => List.not_mem_nil _, fun c _ c' _ => h2 c c'⟩

theorem validateColumn_eq_none (g : Grid) (col : Fin size) :
    validateColumn g col = none ↔
      ∀ r r', r ≠ r' → g r col ≠ 0 → g r col ≠ g r' col := by
  unfold validateColumn
  rw [validateColumnLoop_eq, Option.map_eq_none', firstDup_eq_none,
    pairwise_map_distinct _ _ nodup_indices]
  constructor
  · rintro ⟨_, h2⟩
    exact fun r r' => h2 r (mem_indices r) r' (mem_indices r')
  · intro h2
    exact ⟨fun _ _ _ => List.not_mem_nil _, fun r _ r' _ => h2 r r'⟩

theorem validateBox_eq_none (g : Grid) (b : Fin size) :
    validateBox g b = none ↔
      ∀ r c r' c', r.val / 3 = b.val / 3 → c.val / 3 = b.val % 3 →
        r'.val / 3 = b.val / 3 → c'.val / 3 = b.val % 3 →
        (r, c) ≠ (r', c') → g r c ≠ 0 → g r c ≠ g r' c' := by
  unfold validateBox
  rw [validateBoxLoop_eq, Option.map_eq_none', firstDup_eq_none,
    pairwise_map_distinct _ _ (nodup_boxCells _ _)]
  constructor
  · rintro ⟨_, h2⟩ r c r' c' hr hc hr' hc'
    exact h2 (r, c) ((mem_boxCells _ _ r c).2 ⟨hr, hc⟩) (r', c')
      ((mem_boxCells _ _ r' c').2 ⟨hr', hc'⟩)
  · intro h2
    refine ⟨fun _ _ _ => List.not_mem_nil _, ?_⟩
    rintro ⟨r, c⟩ hp ⟨r', c'⟩ hq
    have hp' := (mem_boxCells _ _ r c).1 hp
    have hq' := (mem_boxCells _ _ r' c').1 hq
    exact h2 r c r' c' hp'.1 hp'.2 hq'.1 hq'.2

theorem ValidateLoop_eq_none (g : Grid) (l : List (Fin size)) :
    ValidateLoop g l = none ↔
      ∀ i ∈ l, validateRow g i = none ∧ validateColumn g i = none ∧ validateBox g i = none := by
  induction l with
  | nil => simp [ValidateLoop]
  | cons i rest ih =>
    simp only [ValidateLoop, List.mem_cons, forall_eq_or_imp]
    cases hr : validateRow g i with
    | some e => simp
    | none =>
      cases hc : validateColumn g i with
      | some e => simp
      | none =>
        cases hb : validateBox g i with
        | some e => simp
        | none => simpa using ih

theorem Validate_eq_none_iff (g : Grid) : Validate g = none ↔ Consistent g := by
  unfold Validate
  rw [ValidateLoop_eq_none]
  simp only [validateRow_eq_none, validateColumn_eq_none, validateBox_eq_none]
  constructor
  · intro h
    refine ⟨fun r c => (h r (mem_indices r)).1.1 c, fun r => (h r (mem_indices r)).1.2,
      fun c => (h c (mem_indices c)).2.1, ?_⟩
    intro r c r' c' hne hbox
    have hb : (boxIdx (div3 r) (div3 c)) ∈ indices := mem_indices _
    refine (h _ hb).2.2 r c r' c' ?_ ?_ ?_ ?_ hne
    all_goals
      have h1 := hbox.1
      have h2 := hbox.2
      have := r.isLt
      have := c.isLt
      simp only [boxIdx, div3, size] at *
      omega
  · rintro ⟨h1, h2, h3, h4⟩ i _
    refine ⟨⟨fun c => h1 i c, h2 i⟩, h3 i, ?_⟩
    intro r c r' c' hr hc hr' hc' hne
    exact h4 r c r' c' hne ⟨hr.trans hr'.symm, hc.trans hc'.symm⟩

theorem not_consistent_iff_violation (g : Grid) : ¬ Consistent g ↔ Violation g := by
  unfold Consistent Violation InRange RowsDistinct ColsDistinct BoxesDistinct
  constructor
  · intro h
    by_contra hv
    apply h
    simp only [not_or, not_exists, not_and] at hv
    obtain ⟨v1, v2, v3, v4⟩ := hv
    refine ⟨?_, ?_, ?_, ?_⟩
    · intro r c h0
      have := v1 r c h0
      omega
    · intro r c c' hne h0 heq
      exact v2 r c c' hne h0 heq
    · intro c r r' hne h0 heq
      exact v3 c r r' hne h0 heq
    · intro r c r' c' hne hbox h0 heq
      exact v4 r c r' c' hne hbox h0 heq
  · rintro hv ⟨h1, h2, h3, h4⟩
    rcases hv with ⟨r, c, h0, hr⟩ | ⟨r, c, c', hne, h0, heq⟩ | ⟨c, r, r', hne, h0, heq⟩ |
      ⟨r, c, r', c', hne, hbox, h0, heq⟩
    · have := h1 r c h0
      omega
    · exact h2 r c c' hne h0 heq
    · exact h3 c r r' hne h0 heq
    · exact h4 r c r' c' hne hbox h0 heq

/-! ## Reading and writing cells -/

theorem set_same (g : Grid) (r c : Fin size) (v : Int) : (g.set r c v) r c = v := by
  simp [Grid.set]

theorem set_other (g : Grid) (r c r' c' : Fin size) (v : Int) (h : (r', c') ≠ (r, c)) :
    (g.set r c v) r' c' = g r' c' := by
  unfold Grid.set
  rw [if_neg]
  rintro ⟨h1, h2⟩
  exact h (by rw [h1, h2])

theorem set_set_zero (g : Grid) (r c : Fin size) (v : Int) (h0 : g r c = 0) :
    (g.set r c v).set r c 0 = g := by
  funext r' c'
  unfold Grid.set
  by_cases h : r' = r ∧ c' = c
  · rw [if_pos h, h.1, h.2, h0]
  · rw [if_neg h, if_neg h]

theorem zeroCount_le (g : Grid) : zeroCount g ≤ 81 := by
  unfold zeroCount
  calc (Finset.univ.filter (fun p : Fin size × Fin size => g p.1 p.2 = 0)).card
      ≤ (Finset.univ : Finset (Fin size × Fin size)).card := Finset.card_filter_le _ _
    _ = 81 := by simp [size]

theorem zeroCount_set (g : Grid) (r c : Fin size) (v : Int) (h0 : g r c = 0) (hv : v ≠ 0) :
    zeroCount (g.set r c v) + 1 = zeroCount g := by
  unfold zeroCount
  have hmem : (r, c) ∈ Finset.univ.filter (fun p : Fin size × Fin size => g p.1 p.2 = 0) := by
    simp [h0]
  have heq : Finset.univ.filter (fun p : Fin size × Fin size => (g.set r c v) p.1 p.2 = 0) =
      (Finset.univ.filter (fun p : Fin size × Fin size => g p.1 p.2 = 0)).erase (r, c) := by
    ext ⟨r', c'⟩
    simp only [Finset.mem_filter, Finset.mem_univ, true_and, Finset.mem_erase, ne_eq]
    by_cases h : (r', c') = (r, c)
    · have h1 : r' = r := congrArg Prod.fst h
      have h2 : c' = c := congrArg Prod.snd h
      subst h1 h2
      simp [set_same, hv]
    · rw [set_other g r c r' c' v h]
      simp [h]
  rw [heq, Finset.card_erase_of_mem hmem]
  have : 0 < (Finset.univ.filter (fun p : Fin size × Fin size => g p.1 p.2 = 0)).card :=
    Finset.card_pos.2 ⟨_, hmem⟩
  omega

/-! ## The cell chosen by `findEmptyCell` -/

theorem findSome_finRange {β : Type} (n : Nat) (f : Fin n → Option β) (b : β)
    (h : (List.finRange n).findSome? f = some b) :
    ∃ a, f a = some b ∧ ∀ x, x < a → f x = none := by
  obtain ⟨l₁, a, l₂, hl, hfa, hnone⟩ := List.findSome?_eq_some_iff.1 h
  refine ⟨a, hfa, fun x hx => ?_⟩
  have hmem : x ∈ l₁ ++ a :: l₂ := hl ▸ List.mem_finRange x
  have hpw : (l₁ ++ a :: l₂).Pairwise (· < ·) := hl ▸ List.pairwise_lt_finRange n
  rcases List.mem_append.1 hmem with h1 | h1
  · exact hnone x h1
  · rcases List.mem_cons.1 h1 with h2 | h2
    · exact absurd hx (h2 ▸ lt_irrefl _)
    · have h3 := (List.pairwise_cons.1 (List.pairwise_append.1 hpw).2.1).1 x h2
      exact absurd hx (not_lt_of_gt h3)

/-- The two outcomes of `findEmptyCell`: the sentinel `(-1, -1)` on a grid
without a zero cell, or the first zero cell in row-major order. -/
theorem findEmptyCell_cases (g : Grid) :
    (findEmptyCell g = (-1, -1) ∧ ∀ r c, g r c ≠ 0) ∨
    ∃ r c, findEmptyCell g = ((r.val : Int), (c.val : Int)) ∧ g r c = 0 ∧
      ∀ r' c', (r' < r ∨ (r' = r ∧ c' < c)) → g r' c' ≠ 0 := by
  unfold findEmptyCell
  cases h : indices.findSome? (fun r =>
      indices.findSome? (fun c => if g r c = 0 then some (r, c) else none)) with
  | none =>
    left
    refine ⟨rfl, fun r c h0 => ?_⟩
    have h1 := List.findSome?_eq_none_iff.1 h r (mem_indices r)
    have h2 := List.findSome?_eq_none_iff.1 h1 c (mem_indices c)
    simp [h0] at h2
  | some p =>
    right
    obtain ⟨r, c⟩ := p
    obtain ⟨a, ha, hbefore⟩ := findSome_finRange size _ _ h
    obtain ⟨b, hb, hbefore'⟩ := findSome_finRange size _ _ ha
    by_cases h0 : g a b = 0
    · simp only [h0, if_true, Option.some.injEq, Prod.mk.injEq] at hb
      obtain ⟨rfl, rfl⟩ := hb
      refine ⟨a, b, rfl, h0, ?_⟩
      intro r' c' hlt hz
      rcases hlt with hlt | ⟨rfl, hlt⟩
      · have h1 := List.findSome?_eq_none_iff.1 (hbefore r' hlt) c' (mem_indices c')
        simp [hz] at h1
      · have h1 := hbefore' c' hlt
        simp [hz] at h1
    · simp [h0] at hb

theorem toIndex_val (i : Fin size) : toIndex (i.val : Int) = some i := by
  unfold toIndex
  have := i.isLt
  rw [dif_pos ⟨by omega, by simp only [size] at *; omega⟩]
  simp

theorem Solve_full (fuel : Nat) (g : Grid) (h : findEmptyCell g = (-1, -1)) :
    Solve (fuel + 1) g = some (true, g) := by
  simp [Solve, h]

theorem Solve_step (fuel : Nat) (g : Grid) (r c : Fin size)
    (h : findEmptyCell g = ((r.val : Int), (c.val : Int))) :
    Solve (fuel + 1) g = solveLoop (Solve fuel) r c candidates g := by
  have hne : ¬ ((r.val : Int) = -1 ∧ (c.val : Int) = -1) := by omega
  simp only [Solve, h, hne, if_false, toIndex_val]

/-! ## Backtracking restores the grid -/

theorem solveLoop_restores (rec : Grid → Option (Bool × Grid)) (hrec : Restores rec)
    (r c : Fin size) (g : Grid) (h0 : g r c = 0) (nums : List Int) (g' : Grid)
    (h : solveLoop rec r c nums g = some (false, g')) : g' = g := by
  induction nums with
  | nil =>
    simp only [solveLoop, Option.some.injEq, Prod.mk.injEq, true_and] at h
    exact h.symm
  | cons num rest ih =>
    unfold solveLoop at h
    by_cases hv : isValid g r c num = true
    · rw [if_pos hv] at h
      cases hr : rec (g.set r c num) with
      | none => rw [hr] at h; cases h
      | some res =>
        obtain ⟨b, x'⟩ := res
        cases b with
        | true => rw [hr] at h; simp at h
        | false =>
          rw [hr] at h
          have hx := hrec _ _ hr
          subst hx
          simp only [set_set_zero g r c num h0] at h
          exact ih h
    · rw [if_neg hv] at h
      exact ih h

theorem Solve_restores (fuel : Nat) : Restores (Solve fuel) := by
  induction fuel with
  | zero => intro x x' h; simp [Solve] at h
  | succ n ih =>
    intro x x' h
    rcases findEmptyCell_cases x with ⟨hf, _⟩ | ⟨r, c, hf, h0, _⟩
    · rw [Solve_full n x hf] at h
      simp at h
    · rw [Solve_step n x r c hf] at h
      exact solveLoop_restores _ ih r c x h0 _ x' h

/-- One turn of the candidate loop, on a cell that is empty and with a
recursive call that restores the grid on failure: the loop goes on from the
grid it started with. -/
theorem solveLoop_cons (rec : Grid → Option (Bool × Grid)) (hrec : Restores rec)
    (r c : Fin size) (g : Grid) (h0 : g r c = 0) (num : Int) (rest : List Int) :
    solveLoop rec r c (num :: rest) g =
      if isValid g r c num = true then
        match rec (g.set r c num) with
        | none => none
        | some (true, g') => some (true, g')
        | some (false, _) => solveLoop rec r c rest g
      else solveLoop rec r c rest g := by
  conv_lhs => unfold solveLoop
  by_cases hv : isValid g r c num = true
  · rw [if_pos hv, if_pos hv]
    cases hr : rec (g.set r c num) with
    | none => rfl
    | some res =>
      obtain ⟨b, x'⟩ := res
      cases b with
      | true => rfl
      | false =>
        have hx := hrec _ _ hr
        simp only [hx, set_set_zero g r c num h0]
  · rw [if_neg hv, if_neg hv]

/-! ## Legal candidates -/

theorem mem_boxCells_div3 (r c r' c' : Fin size) :
    (r', c') ∈ boxCells (div3 r) (div3 c) ↔ SameBox r c r' c' := by
  rw [mem_boxCells]
  unfold SameBox div3
  constructor
  · rintro ⟨h1, h2⟩; exact ⟨h1.symm, h2.symm⟩
  · rintro ⟨h1, h2⟩; exact ⟨h1.symm, h2.symm⟩

theorem isValid_iff (g : Grid) (r c : Fin size) (num : Int) :
    isValid g r c num = true ↔
      (∀ c', g r c' ≠ num) ∧ (∀ r', g r' c ≠ num) ∧
        ∀ r' c', SameBox r c r' c' → g r' c' ≠ num := by
  unfold isValid
  simp only [Bool.and_eq_true, List.all_eq_true, bne_iff_ne, ne_eq, Prod.forall,
    mem_boxCells_div3]
  constructor
  · rintro ⟨⟨h1, h2⟩, h3⟩
    exact ⟨fun c' => h1 c' (mem_indices c'), fun r' => h2 r' (mem_indices r'), h3⟩
  · rintro ⟨h1, h2, h3⟩
    exact ⟨⟨fun c' _ => h1 c', fun r' _ => h2 r'⟩, h3⟩

theorem consistent_set (g : Grid) (r c : Fin size) (num : Int) (hg : Consistent g)
    (hnum : 1 ≤ num ∧ num ≤ 9) (hv : isValid g r c num = true) :
    Consistent (g.set r c num) := by
  obtain ⟨hrow, hcol, hbox⟩ := (isValid_iff g r c num).1 hv
  obtain ⟨h1, h2, h3, h4⟩ := hg
  have key : ∀ a b a' b', (a, b) ≠ (a', b') → (g.set r c num) a b ≠ 0 →
      (a = a' ∨ b = b' ∨ SameBox a b a' b') →
      (g.set r c num) a b ≠ (g.set r c num) a' b' := by
    intro a b a' b' hne hnz hrel heq
    by_cases hab : (a, b) = (r, c)
    · have ha : a = r := congrArg Prod.fst hab
      have hb : b = c := congrArg Prod.snd hab
      subst ha hb
      have hne' : (a', b') ≠ (a, b) := fun h => hne h.symm
      rw [set_same, set_other g a b a' b' num hne'] at heq
      rcases hrel with hrel | hrel | hrel
      · subst hrel; exact hrow b' heq.symm
      · subst hrel; exact hcol a' heq.symm
      · exact hbox a' b' hrel heq.symm
    · rw [set_other g r c a b num hab] at heq hnz
      by_cases hab' : (a', b') = (r, c)
      · have ha : a' = r := congrArg Prod.fst hab'
        have hb : b' = c := congrArg Prod.snd hab'
        subst ha hb
        rw [set_same] at heq
        rcases hrel with hrel | hrel | hrel
        · subst hrel; exact hrow b heq
        · subst hrel; exact hcol a heq
        · exact hbox a b ⟨hrel.1.symm, hrel.2.symm⟩ heq
      · rw [set_other g r c a' b' num hab'] at heq
        rcases hrel with hrel | hrel | hrel
        · subst hrel
          exact h2 a b b' (fun h => hne (by rw [h])) hnz heq
        · subst hrel
          exact h3 b a a' (fun h => hne (by rw [h])) hnz heq
        · exact h4 a b a' b' hne hrel hnz heq
  refine ⟨?_, ?_, ?_, ?_⟩
  · intro a b hnz
    by_cases hab : (a, b) = (r, c)
    · have ha : a = r := congrArg Prod.fst hab
      have hb : b = c := congrArg Prod.snd hab
      subst ha hb
      rw [set_same]; exact hnum
    · rw [set_other g r c a b num hab] at hnz ⊢
      exact h1 a b hnz
  · intro a b b' hne hnz
    exact key a b a b' (fun h => hne (congrArg Prod.snd h)) hnz (Or.inl rfl)
  · intro b a a' hne hnz
    exact key a b a' b (fun h => hne (congrArg Prod.fst h)) hnz (Or.inr (Or.inl rfl))
  · intro a b a' b' hne hrel hnz
    exact key a b a' b' hne hnz (Or.inr (Or.inr hrel))

/-! ## Soundness of the search -/

theorem agrees_trans (g x x' : Grid) (h1 : Agrees g x) (h2 : Agrees x x') : Agrees g x' := by
  intro r c hnz
  have hx := h1 r c hnz
  rw [← hx]
  exact h2 r c (by rw [hx]; exact hnz)

theorem agrees_set_of_zero (g : Grid) (r c : Fin size) (v : Int) (h0 : g r c = 0) :
    Agrees g (g.set r c v) := by
  intro r' c' hnz
  apply set_other
  intro h
  have h1 : r' = r := congrArg Prod.fst h
  have h2 : c' = c := congrArg Prod.snd h
  subst h1 h2
  exact hnz h0

theorem solveLoop_sound (rec : Grid → Option (Bool × Grid)) (hres : Restores rec)
    (hs : SoundRec rec) (r c : Fin size) (g : Grid) (h0 : g r c = 0) (nums : List Int)
    (hnums : ∀ n ∈ nums, 1 ≤ n ∧ n ≤ 9) (g' : Grid)
    (h : solveLoop rec r c nums g = some (true, g')) :
    Agrees g g' ∧ (∀ r c, g' r c ≠ 0) ∧ (Consistent g → Consistent g') := by
  induction nums with
  | nil => simp [solveLoop] at h
  | cons num rest ih =>
    have hrest : ∀ n ∈ rest, 1 ≤ n ∧ n ≤ 9 := fun n hn => hnums n (List.mem_cons_of_mem _ hn)
    rw [solveLoop_cons rec hres r c g h0] at h
    by_cases hv : isValid g r c num = true
    · rw [if_pos hv] at h
      cases hr : rec (g.set r c num) with
      | none => rw [hr] at h; cases h
      | some res =>
        obtain ⟨b, x'⟩ := res
        cases b with
        | false => rw [hr] at h; exact ih hrest h
        | true =>
          rw [hr] at h
          simp only [Option.some.injEq, Prod.mk.injEq, true_and] at h
          subst h
          obtain ⟨ha, hz, hc⟩ := hs _ _ hr
          refine ⟨agrees_trans _ _ _ (agrees_set_of_zero g r c num h0) ha, hz, fun hg => ?_⟩
          exact hc (consistent_set g r c num hg (hnums num (List.mem_cons_self _ _)) hv)
    · rw [if_neg hv] at h
      exact ih hrest h

theorem candidates_range : ∀ n ∈ candidates, 1 ≤ n ∧ n ≤ 9 := by decide

theorem mem_candidates (n : Int) (h : 1 ≤ n ∧ n ≤ 9) : n ∈ candidates := by
  unfold candidates
  simp only [List.mem_cons, List.mem_singleton, List.not_mem_nil, or_false]
  omega

theorem Solve_soundRec (fuel : Nat) : SoundRec (Solve fuel) := by
  induction fuel with
  | zero => intro x x' h; simp [Solve] at h
  | succ n ih =>
    intro x x' h
    rcases findEmptyCell_cases x with ⟨hf, hz⟩ | ⟨r, c, hf, h0, _⟩
    · rw [Solve_full n x hf] at h
      simp only [Option.some.injEq, Prod.mk.injEq, true_and] at h
      subst h
      exact ⟨fun _ _ _ => rfl, hz, fun hc => hc⟩
    · rw [Solve_step n x r c hf] at h
      exact solveLoop_sound _ (Solve_restores n) ih r c x h0 _ candidates_range x' h

theorem solved_of_consistent (g : Grid) (hc : Consistent g) (hz : ∀ r c, g r c ≠ 0) :
    Solved g := by
  obtain ⟨h1, h2, h3, h4⟩ := hc
  exact ⟨hz, fun r c => h1 r c (hz r c), fun r c c' hne => h2 r c c' hne (hz r c),
    fun c r r' hne => h3 c r r' hne (hz r c),
    fun r c r' c' hne hb => h4 r c r' c' hne hb (hz r c)⟩

/-! ## Completeness of the search -/

theorem isValid_of_completion (g h : Grid) (r c : Fin size) (hs : Solved h)
    (ha : Agrees g h) (h0 : g r c = 0) : isValid g r c (h r c) = true := by
  obtain ⟨hz, _, hrow, hcol, hbox⟩ := hs
  have key : ∀ r' c', (r', c') ≠ (r, c) → h r' c' ≠ h r c → g r' c' ≠ h r c := by
    intro r' c' _ hne heq
    by_cases hg : g r' c' = 0
    · exact hz r c (by rw [← heq, hg])
    · exact hne (by rw [ha r' c' hg, heq])
  have self : ∀ r' c', (r', c') = (r, c) → g r' c' ≠ h r c := by
    intro r' c' he heq
    have h1 : r' = r := congrArg Prod.fst he
    have h2 : c' = c := congrArg Prod.snd he
    subst h1 h2
    exact hz r' c' (by rw [← heq, h0])
  rw [isValid_iff]
  refine ⟨fun c' => ?_, fun r' => ?_, fun r' c' hb => ?_⟩
  · by_cases he : (r, c') = (r, c)
    · exact self r c' he
    · exact key r c' he (hrow r c' c (fun hcc => he (by rw [hcc])))
  · by_cases he : (r', c) = (r, c)
    · exact self r' c he
    · exact key r' c he (hcol c r' r (fun hrr => he (by rw [hrr])))
  · by_cases he : (r', c') = (r, c)
    · exact self r' c' he
    · exact key r' c' he (hbox r' c' r c he ⟨hb.1.symm, hb.2.symm⟩)

theorem agrees_set_completion (g h : Grid) (r c : Fin size) (ha : Agrees g h) :
    Agrees (g.set r c (h r c)) h := by
  intro r' c' hnz
  by_cases he : (r', c') = (r, c)
  · have h1 : r' = r := congrArg Prod.fst he
    have h2 : c' = c := congrArg Prod.snd he
    subst h1 h2
    rw [set_same]
  · rw [set_other g r c r' c' _ he] at hnz ⊢
    exact ha r' c' hnz

theorem solveLoop_complete (rec : Grid → Option (Bool × Grid)) (hres : Restores rec)
    (hc : CompleteRec rec) (r c : Fin size) (g : Grid) (h0 : g r c = 0) (nums : List Int)
    (g' : Grid) (h : solveLoop rec r c nums g = some (false, g'))
    (w : Grid) (hw : Solved w) (ha : Agrees g w) : w r c ∉ nums := by
  induction nums with
  | nil => exact List.not_mem_nil _
  | cons num rest ih =>
    rw [solveLoop_cons rec hres r c g h0] at h
    intro hmem
    rcases List.mem_cons.1 hmem with heq | hmem'
    · have hv : isValid g r c num = true := heq ▸ isValid_of_completion g w r c hw ha h0
      rw [if_pos hv] at h
      cases hr : rec (g.set r c num) with
      | none => rw [hr] at h; cases h
      | some res =>
        obtain ⟨b, x'⟩ := res
        cases b with
        | true => rw [hr] at h; simp at h
        | false =>
          exact hc _ _ hr ⟨w, hw, heq ▸ agrees_set_completion g w r c ha⟩
    · by_cases hv : isValid g r c num = true
      · rw [if_pos hv] at h
        cases hr : rec (g.set r c num) with
        | none => rw [hr] at h; cases h
        | some res =>
          obtain ⟨b, x'⟩ := res
          cases b with
          | true => rw [hr] at h; simp at h
          | false => rw [hr] at h; exact ih h hmem'
      · rw [if_neg hv] at h
        exact ih h hmem'

theorem Solve_completeRec (fuel : Nat) : CompleteRec (Solve fuel) := by
  induction fuel with
  | zero => intro x x' h; simp [Solve] at h
  | succ n ih =>
    intro x x' h
    rcases findEmptyCell_cases x with ⟨hf, _⟩ | ⟨r, c, hf, h0, _⟩
    · rw [Solve_full n x hf] at h
      simp at h
    · rw [Solve_step n x r c hf] at h
      rintro ⟨w, hw, ha⟩
      exact solveLoop_complete _ (Solve_restores n) ih r c x h0 _ x' h w hw ha
        (mem_candidates _ (hw.2.1 r c))

/-! ## Termination of the search -/

theorem solveLoop_isSome (rec : Grid → Option (Bool × Grid)) (hres : Restores rec)
    (r c : Fin size) (g : Grid) (h0 : g r c = 0)
    (hrec : ∀ x, zeroCount x < zeroCount g → ∃ res, rec x = some res)
    (nums : List Int) (hnums : ∀ n ∈ nums, 1 ≤ n ∧ n ≤ 9) :
    ∃ res, solveLoop rec r c nums g = some res := by
  induction nums with
  | nil => exact ⟨_, rfl⟩
  | cons num rest ih =>
    have hrest : ∀ n ∈ rest, 1 ≤ n ∧ n ≤ 9 := fun n hn => hnums n (List.mem_cons_of_mem _ hn)
    rw [solveLoop_cons rec hres r c g h0]
    by_cases hv : isValid g r c num = true
    · rw [if_pos hv]
      have hnum := hnums num (List.mem_cons_self _ _)
      have hlt : zeroCount (g.set r c num) < zeroCount g := by
        have := zeroCount_set g r c num h0 (by omega)
        omega
      obtain ⟨⟨b, x'⟩, hr⟩ := hrec _ hlt
      rw [hr]
      cases b with
      | true => exact ⟨_, rfl⟩
      | false => exact ih hrest
    · rw [if_neg hv]
      exact ih hrest

theorem Solve_isSome (fuel : Nat) (g : Grid) (h : zeroCount g < fuel) :
    ∃ res, Solve fuel g = some res := by
  induction fuel generalizing g with
  | zero => omega
  | succ n ih =>
    rcases findEmptyCell_cases g with ⟨hf, _⟩ | ⟨r, c, hf, h0, _⟩
    · exact ⟨_, Solve_full n g hf⟩
    · rw [Solve_step n g r c hf]
      exact solveLoop_isSome _ (Solve_restores n) r c g h0
        (fun x hx => ih x (by omega)) _ candidates_range

/-- The candidate loop is unchanged when every recursive call is first checked
to be on a grid with fewer zero cells than the grid the loop started from. -/
theorem solveLoop_guarded (rec : Grid → Option (Bool × Grid)) (hres : Restores rec)
    (r c : Fin size) (g : Grid) (h0 : g r c = 0) (bound : Nat) (hb : zeroCount g ≤ bound)
    (nums : List Int) (hnums : ∀ n ∈ nums, 1 ≤ n ∧ n ≤ 9) :
    solveLoop (fun x => if zeroCount x < bound then rec x else none) r c nums g =
      solveLoop rec r c nums g := by
  have hres' : Restores (fun x => if zeroCount x < bound then rec x else none) := by
    intro x x' hx
    by_cases hlt : zeroCount x < bound
    · simp only [hlt, if_true] at hx
      exact hres x x' hx
    · simp only [hlt, if_false] at hx
      cases hx
  induction nums with
  | nil => rfl
  | cons num rest ih =>
    have hrest : ∀ n ∈ rest, 1 ≤ n ∧ n ≤ 9 := fun n hn => hnums n (List.mem_cons_of_mem _ hn)
    rw [solveLoop_cons rec hres r c g h0, solveLoop_cons _ hres' r c g h0, ih hrest]
    have hnum := hnums num (List.mem_cons_self _ _)
    have hlt : zeroCount (g.set r c num) < bound := by
      have := zeroCount_set g r c num h0 (by omega)
      omega
    simp only [hlt, if_true]

/-! ## The claims about the validator and the solver -/

theorem exists_of_fst {o : Option (Bool × Grid)} {b : Bool}
    (h : o.map Prod.fst = some b) : ∃ g', o = some (b, g') := by
  cases o with
  | none => cases h
  | some res =>
    obtain ⟨b', g'⟩ := res
    simp only [Option.map_some', Option.some.injEq] at h
    exact ⟨g', by rw [h]⟩

/-- C1 (solver soundness): on a grid that `Validate` accepts, whenever `Solve`
returns true the grid it leaves has no zero cell, every cell is in `1..9`, and
no row, column or 3x3 box contains the same value twice. -/
theorem Solve_sound (g : Grid) (fuel : Nat) (g' : Grid) (hv : Validate g = none)
    (hs : Solve fuel g = some (true, g')) : Solved g' := by
  obtain ⟨_, hz, hc⟩ := Solve_soundRec fuel g g' hs
  exact solved_of_consistent g' (hc ((Validate_eq_none_iff g).1 hv)) hz

set_option maxRecDepth 100000 in
theorem Solve_sound_witness :
    ∃ g', Validate nearlySolvedGrid = none ∧ Solve 3 nearlySolvedGrid = some (true, g') ∧
      Solved g' := by
  obtain ⟨g', hg'⟩ := exists_of_fst
    (by decide : (Solve 3 nearlySolvedGrid).map Prod.fst = some true)
  exact ⟨g', by decide, hg', Solve_sound nearlySolvedGrid 3 g' (by decide) hg'⟩

/-- C2 (solver completeness): on a grid that `Validate` accepts, `Solve` (given
a depth bound above the number of zero cells) returns a result, and that result
is true if and only if some fully filled legal grid agrees with the input on
every cell that is non-zero in the input; so it is never false when a legal
completion exists. -/
theorem Solve_complete (g : Grid) (hv : Validate g = none) (fuel : Nat)
    (hf : zeroCount g < fuel) :
    ∃ b g', Solve fuel g = some (b, g') ∧ (b = true ↔ ∃ h, Solved h ∧ Agrees g h) := by
  obtain ⟨⟨b, g'⟩, hres⟩ := Solve_isSome fuel g hf
  refine ⟨b, g', hres, ?_⟩
  cases b with
  | true =>
    obtain ⟨ha, hz, hc⟩ := Solve_soundRec fuel g g' hres
    exact ⟨fun _ => ⟨g', solved_of_consistent g' (hc ((Validate_eq_none_iff g).1 hv)) hz, ha⟩,
      fun _ => rfl⟩
  | false =>
    exact ⟨fun h => Bool.noConfusion h, fun h => absurd h (Solve_completeRec fuel g g' hres)⟩

set_option maxRecDepth 100000 in
theorem Solve_complete_witness :
    ∃ b g', Solve 3 nearlySolvedGrid = some (b, g') ∧
      (b = true ↔ ∃ h, Solved h ∧ Agrees nearlySolvedGrid h) :=
  Solve_complete nearlySolvedGrid (by decide) 3 (by decide)

/-- C3 (validator soundness): if `Validate` returns no error then every
non-zero cell value lies in `[1,9]` and no row, no column and no 3x3 box
contains a repeated non-zero value. -/
theorem Validate_sound (g : Grid) (h : Validate g = none) :
    InRange g ∧ RowsDistinct g ∧ ColsDistinct g ∧ BoxesDistinct g :=
  (Validate_eq_none_iff g).1 h

set_option maxRecDepth 100000 in
theorem Validate_sound_witness :
    InRange nearlySolvedGrid ∧ RowsDistinct nearlySolvedGrid ∧
      ColsDistinct nearlySolvedGrid ∧ BoxesDistinct nearlySolvedGrid :=
  Validate_sound nearlySolvedGrid (by decide)

/-- C4 (the validator rejects every violation): if some row, column or 3x3 box
holds the same non-zero value at two different cells, or some non-zero cell
value lies outside `[1,9]` (negative values included), then `Validate` returns
an error; every error is due to such a violation among the non-zero cells, so
zero cells never cause one; and the grid of all zeros is accepted. -/
theorem Validate_rejects_violation (g : Grid) :
    (Violation g → ∃ e, Validate g = some e) ∧
      ((∃ e, Validate g = some e) → Violation g) ∧ Validate emptyGrid = none := by
  refine ⟨fun hv => ?_, fun he => ?_, by decide⟩
  · cases hr : Validate g with
    | some e => exact ⟨e, rfl⟩
    | none =>
      exact absurd ((Validate_eq_none_iff g).1 hr) ((not_consistent_iff_violation g).2 hv)
  · obtain ⟨e, he⟩ := he
    apply (not_consistent_iff_violation g).1
    intro hc
    rw [(Validate_eq_none_iff g).2 hc] at he
    cases he

theorem Validate_rejects_violation_witness : ∃ e, Validate negativeGrid = some e :=
  (Validate_rejects_violation negativeGrid).1
    (Or.inl ⟨4, 4, by decide, Or.inl (by decide)⟩)

/-- C5 (failure restores the grid): for every grid, accepted by `Validate` or
not, if `Solve` returns false then the grid after the call is cell for cell the
grid before the call. -/
theorem Solve_failure_restores (fuel : Nat) (g g' : Grid)
    (h : Solve fuel g = some (false, g')) : ∀ r c, g' r c = g r c := by
  intro r c
  rw [Solve_restores fuel g g' h]

set_option maxRecDepth 100000 in
theorem Solve_failure_restores_witness :
    ∃ g', Solve 3 deadEndGrid = some (false, g') ∧ ∀ r c, g' r c = deadEndGrid r c := by
  obtain ⟨g', hg'⟩ := exists_of_fst
    (by decide : (Solve 3 deadEndGrid).map Prod.fst = some false)
  exact ⟨g', hg', Solve_failure_restores 3 deadEndGrid g' hg'⟩

/-- C6 (termination): for every grid, validated or not, the number of zero
cells is at most 81 and `Solve` returns a result as soon as the bound on the
depth of nested calls exceeds the number of zero cells; and when the grid has
an empty cell, every recursive call of the candidate loop is made on a grid
with strictly fewer zero cells than the grid the call started from (guarding
the recursive calls by that test changes nothing). -/
theorem Solve_terminates (g : Grid) :
    zeroCount g ≤ 81 ∧
      (∀ fuel, zeroCount g < fuel → ∃ b g', Solve fuel g = some (b, g')) ∧
      (∀ fuel r c, findEmptyCell g = ((r.val : Int), (c.val : Int)) →
        (∀ num ∈ candidates, zeroCount (g.set r c num) < zeroCount g) ∧
        Solve (fuel + 1) g =
          solveLoop (fun x => if zeroCount x < zeroCount g then Solve fuel x else none)
            r c candidates g) := by
  refine ⟨zeroCount_le g, fun fuel hf => ?_, fun fuel r c hf => ?_⟩
  · obtain ⟨⟨b, g'⟩, h⟩ := Solve_isSome fuel g hf
    exact ⟨b, g', h⟩
  · have h0 : g r c = 0 := by
      rcases findEmptyCell_cases g with ⟨hf', _⟩ | ⟨r', c', hf', h0, _⟩
      · rw [hf'] at hf
        have := congrArg Prod.fst hf
        simp only at this
        omega
      · rw [hf'] at hf
        have h1 := congrArg Prod.fst hf
        have h2 := congrArg Prod.snd hf
        simp only [Nat.cast_inj] at h1 h2
        have e1 : r' = r := Fin.ext h1
        have e2 : c' = c := Fin.ext h2
        rw [← e1, ← e2]
        exact h0
    refine ⟨fun num hnum => ?_, ?_⟩
    · have hr := candidates_range num hnum
      have := zeroCount_set g r c num h0 (by omega)
      omega
    · rw [Solve_step fuel g r c hf,
        solveLoop_guarded (Solve fuel) (Solve_restores fuel) r c g h0 (zeroCount g)
          (le_refl _) candidates candidates_range]

set_option maxRecDepth 100000 in
theorem Solve_terminates_witness :
    ∃ b g', Solve 82 deadEndGrid = some (b, g') :=
  (Solve_terminates deadEndGrid).2.1 82 (by decide)

/-! ## Decimal rendering and scanning -/

theorem plainDigit_digitChar : ∀ k, k < 10 → PlainDigit (Nat.digitChar k) := by
  unfold PlainDigit
  decide

theorem digitValue_digitChar : ∀ k, k < 10 → digitValue (Nat.digitChar k) = k := by
  decide

theorem toDigitsCore_plain (fuel n : Nat) (ds : List Char) (hds : ∀ ch ∈ ds, PlainDigit ch) :
    ∀ ch ∈ Nat.toDigitsCore 10 fuel n ds, PlainDigit ch := by
  induction fuel generalizing n ds with
  | zero => simpa [Nat.toDigitsCore] using hds
  | succ f ih =>
    have hcons : ∀ ch ∈ Nat.digitChar (n % 10) :: ds, PlainDigit ch := by
      intro ch hch
      rcases List.mem_cons.1 hch with h | h
      · rw [h]; exact plainDigit_digitChar _ (Nat.mod_lt _ (by decide))
      · exact hds ch h
    unfold Nat.toDigitsCore
    by_cases h0 : n / 10 = 0
    · simp only [h0, if_true]; exact hcons
    · simp only [h0, if_false]; exact ih _ _ hcons

theorem toDigitsCore_ne_nil (fuel n : Nat) (ds : List Char) :
    Nat.toDigitsCore 10 (fuel + 1) n ds ≠ [] := by
  induction fuel generalizing n ds with
  | zero =>
    unfold Nat.toDigitsCore
    by_cases h0 : n / 10 = 0
    · simp [h0]
    · simp [h0, Nat.toDigitsCore]
  | succ f ih =>
    unfold Nat.toDigitsCore
    by_cases h0 : n / 10 = 0
    · simp [h0]
    · simp only [h0, if_false]; exact ih _ _

theorem toDigitsCore_value (fuel n : Nat) (ds : List Char) (h : n < fuel) :
    (Nat.toDigitsCore 10 fuel n ds).foldl (fun acc ch => acc * 10 + digitValue ch) 0 =
      ds.foldl (fun acc ch => acc * 10 + digitValue ch) n := by
  induction fuel generalizing n ds with
  | zero => omega
  | succ f ih =>
    unfold Nat.toDigitsCore
    have hd : digitValue (Nat.digitChar (n % 10)) = n % 10 :=
      digitValue_digitChar _ (Nat.mod_lt _ (by decide))
    by_cases h0 : n / 10 = 0
    · simp only [h0, if_true, List.foldl_cons, hd]
      congr 1
      omega
    · simp only [h0, if_false]
      rw [ih (n / 10) _ (by omega), List.foldl_cons, hd]
      congr 1
      omega

theorem toDigits_plain (n : Nat) : ∀ ch ∈ Nat.toDigits 10 n, PlainDigit ch :=
  toDigitsCore_plain _ _ _ (fun _ h => absurd h (List.not_mem_nil _))

theorem toDigits_ne_nil (n : Nat) : Nat.toDigits 10 n ≠ [] := toDigitsCore_ne_nil _ _ _

theorem toDigits_value (n : Nat) :
    (Nat.toDigits 10 n).foldl (fun acc ch => acc * 10 + digitValue ch) 0 = n := by
  unfold Nat.toDigits
  rw [toDigitsCore_value _ _ _ (Nat.lt_succ_self n)]
  rfl

theorem takeWhile_digits (ds : List Char) (h : ∀ ch ∈ ds, PlainDigit ch) :
    ds.takeWhile Char.isDigit = ds :=
  List.takeWhile_eq_self_iff.2 (fun ch hch => (h ch hch).1)

/-- Scanning the digits of a number, after an accepted sign or none. -/
theorem scanInt_digits (n : Nat) :
    ∃ d rest, Nat.toDigits 10 n = d :: rest ∧ PlainDigit d ∧
      skipSpace (d :: rest) = Except.ok (d :: rest) := by
  cases hds : Nat.toDigits 10 n with
  | nil => exact absurd hds (toDigits_ne_nil n)
  | cons d rest =>
    have hd : PlainDigit d := toDigits_plain n d (by rw [hds]; exact List.mem_cons_self _ _)
    refine ⟨d, rest, rfl, hd, ?_⟩
    unfold skipSpace
    rw [if_neg hd.2.1, hd.2.2.1]
    rfl

theorem sscanfInt_formatInt (v : Int) (hv : minInt ≤ v ∧ v ≤ maxInt) :
    sscanfInt (formatInt v) = Except.ok v := by
  obtain ⟨d, rest, hds, hd, hskip⟩ := scanInt_digits v.natAbs
  have htake : (d :: rest).takeWhile Char.isDigit = d :: rest :=
    takeWhile_digits _ (hds ▸ toDigits_plain v.natAbs)
  have hval : (d :: rest).foldl (fun acc ch => acc * 10 + digitValue ch) 0 = v.natAbs :=
    hds ▸ toDigits_value v.natAbs
  unfold minInt maxInt at hv
  unfold formatInt
  rw [hds]
  by_cases hneg : v < 0
  · have hskip' : skipSpace ('-' :: d :: rest) = Except.ok ('-' :: d :: rest) := by
      unfold skipSpace
      rw [if_neg (by decide), if_neg (by decide)]
    have hle : v.natAbs ≤ 2 ^ 63 := by omega
    have hback : -(v.natAbs : Int) = v := by omega
    simp only [hneg, if_true, sscanfInt, scanInt, hskip', or_true, decide_True,
      hd.1, htake, parseInt, hval, hle, hback]
  · have hlt : v.natAbs < 2 ^ 63 := by omega
    have hback : (v.natAbs : Int) = v := by omega
    have hs : ¬ (d = '+' ∨ d = '-') := fun h => h.elim hd.2.2.2.1 hd.2.2.2.2.1
    have hm : decide (d = '-') = false := decide_eq_false hd.2.2.2.2.1
    simp only [hneg, if_false, sscanfInt, scanInt, hskip, hs, hm, hd.1, htake, parseInt,
      hval, hlt, hback, if_true]
    rfl

theorem formatInt_plain (v : Int) : ∀ ch ∈ formatInt v, ch ≠ ',' ∧ ch ≠ '\n' := by
  intro ch hch
  unfold formatInt at hch
  have key : ch ∈ Nat.toDigits 10 v.natAbs → ch ≠ ',' ∧ ch ≠ '\n' := fun h =>
    ⟨(toDigits_plain _ ch h).2.2.2.2.2, (toDigits_plain _ ch h).2.1⟩
  by_cases hneg : v < 0
  · rw [if_pos hneg] at hch
    rcases List.mem_cons.1 hch with h | h
    · rw [h]; exact ⟨by decide, by decide⟩
    · exact key h
  · rw [if_neg hneg] at hch
    exact key hch

/-! ## The parser on rendered integers -/

theorem toIndex_nat (k : Nat) (hk : k < size) :
    toIndex ((k : Nat) : Int) = some ⟨k, hk⟩ := toIndex_val ⟨k, hk⟩

/-- The loop of `ParseInput` on the renderings of in-range integers fills the
cells `i, i+1, ...` in row-major order and leaves the earlier cells alone. -/
theorem parseLoop_format (vs : List Int) (hr : ∀ v ∈ vs, minInt ≤ v ∧ v ≤ maxInt)
    (i : Nat) (hi : i + vs.length ≤ 81) (grid : Grid) :
    ∃ g, parseLoop (vs.map formatInt) i grid = Except.ok g ∧
      (∀ k (hk : k < 81), i ≤ k → k < i + vs.length →
        vs[k - i]? = some (g (rowOf k hk) (colOf k))) ∧
      (∀ k (hk : k < 81), k < i → g (rowOf k hk) (colOf k) =
        grid (rowOf k hk) (colOf k)) := by
  induction vs generalizing i grid with
  | nil =>
    refine ⟨grid, rfl, ?_, fun _ _ _ => rfl⟩
    intro k _ h1 h2
    simp only [List.length_nil, Nat.add_zero] at h2
    omega
  | cons v rest ih =>
    simp only [List.length_cons] at hi
    have hv := hr v (List.mem_cons_self _ _)
    have hrest : ∀ w ∈ rest, minInt ≤ w ∧ w ≤ maxInt :=
      fun w hw => hr w (List.mem_cons_of_mem _ hw)
    have hrow : i / size < size := by simp only [size]; omega
    have hcol : i % size < size := by simp only [size]; omega
    obtain ⟨g, hg, hfill, hkeep⟩ := ih hrest (i + 1) (by omega)
      (grid.set ⟨i / size, hrow⟩ ⟨i % size, hcol⟩ v)
    refine ⟨g, ?_, ?_, ?_⟩
    · simp only [List.map_cons, parseLoop, sscanfInt_formatInt v hv, toIndex_nat _ hrow,
        toIndex_nat _ hcol]
      exact hg
    · intro k hk h1 h2
      simp only [List.length_cons] at h2
      by_cases hki : k = i
      · subst hki
        rw [Nat.sub_self, List.getElem?_cons_zero, hkeep k hk (by omega)]
        congr 1
        exact (set_same _ _ _ _).symm
      · have hsub : k - i = (k - (i + 1)) + 1 := by omega
        rw [hsub, List.getElem?_cons_succ]
        exact hfill k hk (by omega) (by omega)
    · intro k hk h1
      rw [hkeep k hk (by omega)]
      apply set_other
      intro h
      have e1 := congrArg (fun p : Fin size × Fin size => p.1.val) h
      have e2 := congrArg (fun p : Fin size × Fin size => p.2.val) h
      simp only [size, rowOf, colOf] at e1 e2
      omega

theorem splitOn_joinComma (toks : List (List Char)) (hne : toks ≠ [])
    (h : ∀ t ∈ toks, ',' ∉ t) : (joinComma toks).splitOn ',' = toks :=
  List.splitOn_intercalate toks ',' h hne

theorem comma_not_mem_formatInt (vs : List Int) : ∀ t ∈ vs.map formatInt, ',' ∉ t := by
  intro t ht hc
  obtain ⟨v, _, rfl⟩ := List.mem_map.1 ht
  exact (formatInt_plain v _ hc).1 rfl

/-- The parser on the renderings of 81 in-range integers joined by commas. -/
theorem ParseInput_format (vs : List Int) (hlen : vs.length = 81)
    (hr : ∀ v ∈ vs, minInt ≤ v ∧ v ≤ maxInt) :
    ∃ g, ParseInput (joinComma (vs.map formatInt)) = Except.ok g ∧
      ∀ i (hi : i < 81), vs[i]? = some (g (rowOf i hi) (colOf i)) := by
  have hne : vs.map formatInt ≠ [] := by
    intro h
    have := congrArg List.length h
    simp only [List.length_map, hlen, List.length_nil] at this
    omega
  obtain ⟨g, hg, hfill, _⟩ := parseLoop_format vs hr 0 (by omega) emptyGrid
  refine ⟨g, ?_, fun i hi => ?_⟩
  · unfold ParseInput
    simp only [splitOn_joinComma _ hne (comma_not_mem_formatInt vs), List.length_map, hlen,
      size, ne_eq, not_true_eq_false, if_false]
    exact hg
  · have := hfill i hi (Nat.zero_le _) (by omega)
    simpa using this

/-! ## The claims about the parser -/

/-- C7 (parser success and layout): for 81 integers of the range of `int`,
negative ones and ones above nine included, `ParseInput` applied to their plain
decimal renderings joined by `','` returns no error and a grid whose cell at
row `i/9`, column `i%9` is the `i`-th integer, for every `i` in `0..80`; no
range and no uniqueness is enforced. -/
theorem ParseInput_layout (vs : List Int) (hlen : vs.length = 81)
    (hr : ∀ v ∈ vs, minInt ≤ v ∧ v ≤ maxInt) :
    ∃ g, ParseInput (joinComma (vs.map formatInt)) = Except.ok g ∧
      ∀ i (hi : i < 81), vs[i]? = some (g (rowOf i hi) (colOf i)) :=
  ParseInput_format vs hlen hr

theorem ParseInput_layout_witness :
    ∃ g, ParseInput (joinComma (wideValues.map formatInt)) = Except.ok g ∧
      ∀ i (hi : i < 81), wideValues[i]? = some (g (rowOf i hi) (colOf i)) :=
  ParseInput_layout wideValues (by decide) (by decide)

/-- C8 (parser token count): whenever splitting the input on `','` yields a
number of tokens other than 81, `ParseInput` returns the error
`"invalid input length"`, whatever the tokens contain. -/
theorem ParseInput_token_count (input : List Char)
    (h : (input.splitOn ',').length ≠ 81) :
    ParseInput input = Except.error ParseError.invalidInputLength := by
  unfold ParseInput
  simp only [size]
  rw [if_pos h]

theorem ParseInput_token_count_witness :
    ParseInput [] = Except.error ParseError.invalidInputLength ∧
      ParseInput "5,3,0,0,7,0,0,0,0,6,0,0,1,9,5,0,0".toList =
        Except.error ParseError.invalidInputLength :=
  ⟨ParseInput_token_count [] (by decide),
    ParseInput_token_count "5,3,0,0,7,0,0,0,0,6,0,0,1,9,5,0,0".toList (by decide)⟩

/-- C9 (non-integer tokens), evaluated on the code: the input
`trailingGarbageInput` splits into exactly 81 tokens, its first token `5x` is
not an integer literal, and yet `ParseInput` returns no error: it stores `5`
in the first cell. -/
theorem ParseInput_accepts_trailing_garbage :
    (trailingGarbageInput.splitOn ',').length = 81 ∧
      (∃ tok ∈ trailingGarbageInput.splitOn ',', isIntLiteral tok = false) ∧
      ∃ g, ParseInput trailingGarbageInput = Except.ok g ∧ g 0 0 = 5 := by
  refine ⟨by decide, ⟨"5x".toList, by decide, by decide⟩, ?_⟩
  have h : (ParseInput trailingGarbageInput).toOption.map (fun g => g 0 0) = some 5 := by
    decide
  cases hp : ParseInput trailingGarbageInput with
  | error e => rw [hp] at h; cases h
  | ok g =>
    rw [hp] at h
    exact ⟨g, rfl, by simpa [Except.toOption] using h⟩

/-! ## The renderer -/

theorem joinComma_single (t : List Char) : joinComma [t] = t := by
  simp [joinComma, List.intercalate]

theorem joinComma_cons_cons (t t' : List Char) (ts : List (List Char)) :
    joinComma (t :: t' :: ts) = t ++ ',' :: joinComma (t' :: ts) := by
  simp [joinComma, List.intercalate]

theorem joinComma_cons (t : List Char) (ts : List (List Char)) (h : ts ≠ []) :
    joinComma (t :: ts) = t ++ ',' :: joinComma ts := by
  cases ts with
  | nil => exact absurd rfl h
  | cons t' ts' => exact joinComma_cons_cons t t' ts'

theorem joinComma_append (xs ys : List (List Char)) (hx : xs ≠ []) (hy : ys ≠ []) :
    joinComma (xs ++ ys) = joinComma xs ++ ',' :: joinComma ys := by
  induction xs with
  | nil => exact absurd rfl hx
  | cons t ts ih =>
    cases ts with
    | nil => rw [List.singleton_append, joinComma_cons t ys hy, joinComma_single]
    | cons t' ts' =>
      rw [List.cons_append, joinComma_cons t _ (by simp), ih (by simp),
        joinComma_cons_cons, List.append_assoc]
      rfl

theorem joinComma_flatten (L : List (List (List Char))) (h : ∀ X ∈ L, X ≠ []) :
    joinComma (L.map joinComma) = joinComma L.flatten := by
  induction L with
  | nil => rfl
  | cons X rest ih =>
    have hrest : ∀ Y ∈ rest, Y ≠ [] := fun Y hY => h Y (List.mem_cons_of_mem _ hY)
    cases rest with
    | nil => simp [joinComma_single]
    | cons Y rest' =>
      have hY : Y ≠ [] := h Y (by simp)
      have e : (X :: Y :: rest').flatten = X ++ (Y :: rest').flatten := rfl
      rw [e, joinComma_append X _ (h X (by simp)) (by simp [hY]), List.map_cons,
        joinComma_cons _ _ (by simp), ih hrest]

theorem mem_joinComma (toks : List (List Char)) (ch : Char) (h : ch ∈ joinComma toks) :
    ch = ',' ∨ ∃ t ∈ toks, ch ∈ t := by
  induction toks with
  | nil => simp [joinComma, List.intercalate] at h
  | cons t ts ih =>
    cases ts with
    | nil =>
      rw [joinComma_single] at h
      exact Or.inr ⟨t, List.mem_cons_self _ _, h⟩
    | cons t' ts' =>
      rw [joinComma_cons_cons] at h
      rcases List.mem_append.1 h with h1 | h1
      · exact Or.inr ⟨t, List.mem_cons_self _ _, h1⟩
      · rcases List.mem_cons.1 h1 with h2 | h2
        · exact Or.inl h2
        · rcases ih h2 with h3 | ⟨u, hu, hch⟩
          · exact Or.inl h3
          · exact Or.inr ⟨u, List.mem_cons_of_mem _ hu, hch⟩

theorem commaForNewline_zero (s : List Char) : commaForNewline 0 s = s := by
  cases s <;> rfl

theorem commaForNewline_line (n : Nat) (l rest : List Char) (h : '\n' ∉ l) :
    commaForNewline (n + 1) (l ++ '\n' :: rest) = l ++ ',' :: commaForNewline n rest := by
  induction l with
  | nil => simp [commaForNewline]
  | cons ch l' ih =>
    have hch : ch ≠ '\n' := fun e => h (by rw [e]; exact List.mem_cons_self _ _)
    have hl' : '\n' ∉ l' := fun e => h (List.mem_cons_of_mem _ e)
    rw [List.cons_append, commaForNewline, if_neg hch, ih hl', List.cons_append]

theorem commaForNewline_lines (l : List Char) (ls : List (List Char))
    (h : ∀ t ∈ l :: ls, '\n' ∉ t) :
    commaForNewline ls.length (((l :: ls).map (fun t => t ++ ['\n'])).flatten) =
      joinComma (l :: ls) ++ ['\n'] := by
  induction ls generalizing l with
  | nil => simp [commaForNewline_zero, joinComma_single]
  | cons l' ls' ih =>
    have hl : '\n' ∉ l := h l (List.mem_cons_self _ _)
    have hrest : ∀ t ∈ l' :: ls', '\n' ∉ t := fun t ht => h t (List.mem_cons_of_mem _ ht)
    have hstep := ih l' hrest
    rw [List.map_cons, List.flatten_cons, List.append_assoc, List.singleton_append,
      List.length_cons, commaForNewline_line _ _ _ hl, hstep, joinComma_cons_cons,
      List.append_assoc]
    rfl

theorem printRowLoop_eq (g : Grid) (r : Fin size) (cols : List (Fin size))
    (acc : List Char) :
    printRowLoop g r cols acc =
      acc ++ (cols.map (fun c =>
        formatInt (g r c) ++ if c.val < size - 1 then [','] else [])).flatten := by
  induction cols generalizing acc with
  | nil => simp [printRowLoop]
  | cons c rest ih =>
    simp only [printRowLoop, ih, List.map_cons, List.flatten_cons]
    by_cases hc : c.val < size - 1
    · simp only [hc, if_true, List.append_assoc]
    · simp only [hc, if_false, List.append_assoc, List.append_nil]

theorem indices_eq : indices = [0, 1, 2, 3, 4, 5, 6, 7, 8] := by decide

theorem printRowLoop_indices (g : Grid) (r : Fin size) (acc : List Char) :
    printRowLoop g r indices acc =
      acc ++ joinComma (indices.map (fun c => formatInt (g r c))) := by
  rw [printRowLoop_eq, indices_eq]
  have e0 : (((0 : Fin size).val < size - 1) = True) :=
    eq_true (by decide)
  have e1 : (((1 : Fin size).val < size - 1) = True) :=
    eq_true (by decide)
  have e2 : (((2 : Fin size).val < size - 1) = True) :=
    eq_true (by decide)
  have e3 : (((3 : Fin size).val < size - 1) = True) :=
    eq_true (by decide)
  have e4 : (((4 : Fin size).val < size - 1) = True) :=
    eq_true (by decide)
  have e5 : (((5 : Fin size).val < size - 1) = True) :=
    eq_true (by decide)
  have e6 : (((6 : Fin size).val < size - 1) = True) :=
    eq_true (by decide)
  have e7 : (((7 : Fin size).val < size - 1) = True) :=
    eq_true (by decide)
  have e8 : (((8 : Fin size).val < size - 1) = False) :=
    eq_false (by decide)
  simp only [List.map_cons, List.map_nil, e0, e1, e2, e3, e4, e5, e6, e7, e8, if_true,
    if_false]
  simp [joinComma, List.intercalate]

theorem printLoop_eq (g : Grid) (rows : List (Fin size)) (acc : List Char) :
    printLoop g rows acc =
      acc ++ (rows.map (fun r =>
        joinComma (indices.map (fun c => formatInt (g r c))) ++ ['\n'])).flatten := by
  induction rows generalizing acc with
  | nil => simp [printLoop]
  | cons r rest ih =>
    simp only [printLoop, ih, printRowLoop_indices, List.map_cons, List.flatten_cons,
      List.append_assoc]

theorem gridText_eq (g : Grid) :
    gridText g = (indices.map (fun r =>
      joinComma (indices.map (fun c => formatInt (g r c))) ++ ['\n'])).flatten := by
  unfold gridText
  rw [printLoop_eq, List.nil_append]

theorem line_no_newline (g : Grid) (r : Fin size) :
    '\n' ∉ joinComma (indices.map (fun c => formatInt (g r c))) := by
  intro h
  rcases mem_joinComma _ _ h with h1 | ⟨t, ht, hch⟩
  · exact absurd h1 (by decide)
  · obtain ⟨c, _, rfl⟩ := List.mem_map.1 ht
    exact (formatInt_plain _ _ hch).2 rfl

/-! ## Parsing and rendering back -/

theorem rowMajor_cells :
    (indices.map (fun r => indices.map (fun c => (r, c)))).flatten =
      (List.finRange 81).map (fun i => (rowOf i.val i.isLt, colOf i.val)) := by
  decide

theorem rowMajor_map {β : Type} (f : Fin size → Fin size → β) :
    (indices.map (fun r => indices.map (fun c => f r c))).flatten =
      (List.finRange 81).map (fun i => f (rowOf i.val i.isLt) (colOf i.val)) := by
  have h : (indices.map (fun r => indices.map (fun c => f r c))).flatten =
      ((indices.map (fun r => indices.map (fun c => (r, c)))).flatten).map
        (fun p => f p.1 p.2) := by
    simp [List.map_flatten, List.map_map, Function.comp_def]
  rw [h, rowMajor_cells, List.map_map]
  rfl

theorem eq_map_finRange (vs : List Int) (n : Nat) (hn : vs.length = n) (G : Fin n → Int)
    (h : ∀ i : Fin n, vs[i.val]? = some (G i)) : vs = (List.finRange n).map G := by
  subst hn
  conv_lhs => rw [← List.finRange_map_get vs]
  apply List.map_congr_left
  intro i _
  have := h i
  rw [List.getElem?_eq_getElem i.isLt] at this
  exact Option.some.inj this

/-- The values of a parsed grid, read row by row, are the integers parsed. -/
theorem rowMajor_tokens (vs : List Int) (hlen : vs.length = 81) (g : Grid)
    (hg : ∀ i (hi : i < 81), vs[i]? = some (g (rowOf i hi) (colOf i))) :
    (indices.map (fun r => indices.map (fun c => formatInt (g r c)))).flatten =
      vs.map formatInt := by
  rw [rowMajor_map (fun r c => formatInt (g r c)),
    eq_map_finRange vs 81 hlen (fun i => g (rowOf i.val i.isLt) (colOf i.val))
      (fun i => hg i.val i.isLt), List.map_map]
  rfl

/-- C10 (parse/render round trip): for an input made of 81 plain decimal
integers of the range of `int` joined by `','`, the grid text built by
`PrintGrid` from the result of `ParseInput` is made of 9 lines, each the 9
renderings of a row joined by commas, free of newlines and followed by one
newline; and replacing its first 8 newlines by `','` gives the input followed
by the last newline. -/
theorem parse_print_roundtrip (vs : List Int) (hlen : vs.length = 81)
    (hr : ∀ v ∈ vs, minInt ≤ v ∧ v ≤ maxInt) :
    ∃ g, ParseInput (joinComma (vs.map formatInt)) = Except.ok g ∧
      PrintGrid g = "Sudoku Grid:\n".toList ++ gridText g ∧
      indices.length = 9 ∧
      gridText g = (indices.map (fun r =>
        joinComma (indices.map (fun c => formatInt (g r c))) ++ ['\n'])).flatten ∧
      (∀ r, '\n' ∉ joinComma (indices.map (fun c => formatInt (g r c)))) ∧
      commaForNewline 8 (gridText g) = joinComma (vs.map formatInt) ++ ['\n'] := by
  obtain ⟨g, hparse, hg⟩ := ParseInput_format vs hlen hr
  refine ⟨g, hparse, rfl, by decide, gridText_eq g, line_no_newline g, ?_⟩
  have hlines : indices.map (fun r => joinComma (indices.map (fun c => formatInt (g r c)))) =
      (indices.map (fun r => indices.map (fun c => formatInt (g r c)))).map joinComma := by
    rw [List.map_map]
    rfl
  have hne : ∀ X ∈ indices.map (fun r => indices.map (fun c => formatInt (g r c))),
      X ≠ [] := by
    intro X hX
    obtain ⟨r, _, rfl⟩ := List.mem_map.1 hX
    rw [indices_eq]
    simp
  have hjoin : joinComma (indices.map (fun r =>
      joinComma (indices.map (fun c => formatInt (g r c))))) = joinComma (vs.map formatInt) := by
    rw [hlines, joinComma_flatten _ hne, rowMajor_tokens vs hlen g hg]
  have hsplit : indices.map (fun r =>
      joinComma (indices.map (fun c => formatInt (g r c))) ++ ['\n']) =
      (indices.map (fun r => joinComma (indices.map (fun c => formatInt (g r c))))).map
        (fun t => t ++ ['\n']) := by
    rw [List.map_map]
    rfl
  rw [gridText_eq, hsplit, ← hjoin]
  cases hl : indices.map (fun r => joinComma (indices.map (fun c => formatInt (g r c)))) with
  | nil =>
    have := congrArg List.length hl
    rw [List.length_map, indices_eq] at this
    simp at this
  | cons l ls =>
    have hlen' : ls.length = 8 := by
      have := congrArg List.length hl
      rw [List.length_map, indices_eq] at this
      simp at this
      omega
    rw [← hlen']
    apply commaForNewline_lines
    intro t ht
    rw [← hl] at ht
    obtain ⟨r, _, rfl⟩ := List.mem_map.1 ht
    exact line_no_newline g r

theorem parse_print_roundtrip_witness :
    ∃ g, ParseInput (joinComma (wideValues.map formatInt)) = Except.ok g ∧
      PrintGrid g = "Sudoku Grid:\n".toList ++ gridText g ∧
      indices.length = 9 ∧
      gridText g = (indices.map (fun r =>
        joinComma (indices.map (fun c => formatInt (g r c))) ++ ['\n'])).flatten ∧
      (∀ r, '\n' ∉ joinComma (indices.map (fun c => formatInt (g r c)))) ∧
      commaForNewline 8 (gridText g) = joinComma (wideValues.map formatInt) ++ ['\n'] :=
  parse_print_roundtrip wideValues (by decide) (by decide)

/-! ## Solved grids, the empty grid and the givens -/

set_option maxRecDepth 100000 in
theorem solvedGrid_solved : Solved solvedGrid :=
  solved_of_consistent solvedGrid ((Validate_eq_none_iff solvedGrid).1 (by decide))
    (by decide)

theorem Solve_of_no_zero (g : Grid) (hz : ∀ r c, g r c ≠ 0) (fuel : Nat) :
    Solve (fuel + 1) g = some (true, g) := by
  rcases findEmptyCell_cases g with ⟨hf, _⟩ | ⟨r, c, _, h0, _⟩
  · exact Solve_full fuel g hf
  · exact absurd h0 (hz r c)

theorem Solve_agrees (fuel : Nat) (g : Grid) (b : Bool) (g' : Grid)
    (h : Solve fuel g = some (b, g')) : Agrees g g' := by
  cases b with
  | true => exact (Solve_soundRec fuel g g' h).1
  | false =>
    rw [Solve_restores fuel g g' h]
    exact fun _ _ _ => rfl

/-- C11 (idempotence on solved grids): on a grid without zero cell that
satisfies all constraints with values in `1..9`, `Solve` returns true and
leaves the grid as it is, already with a depth bound of one, that is without a
recursive call; hence a second run of `Solve` on the grid left by a successful
run returns true and changes nothing. -/
theorem Solve_idempotent :
    (∀ g, Solved g → ∀ fuel, Solve (fuel + 1) g = some (true, g)) ∧
      (∀ fuel g g', Solve fuel g = some (true, g') →
        ∀ fuel', Solve (fuel' + 1) g' = some (true, g')) :=
  ⟨fun g hs fuel => Solve_of_no_zero g hs.1 fuel,
    fun fuel g g' h fuel' => Solve_of_no_zero g' (Solve_soundRec fuel g g' h).2.1 fuel'⟩

theorem Solve_idempotent_witness : Solve 1 solvedGrid = some (true, solvedGrid) :=
  Solve_idempotent.1 solvedGrid solvedGrid_solved 0

/-- C13 (empty grid): the grid of all zeros is accepted by `Validate`, and
`Solve` returns true on it and leaves a fully filled grid that satisfies all
row, column and box constraints. -/
theorem emptyGrid_solvable :
    Validate emptyGrid = none ∧
      ∃ g', Solve 82 emptyGrid = some (true, g') ∧ Solved g' := by
  have hv : Validate emptyGrid = none := by decide
  refine ⟨hv, ?_⟩
  obtain ⟨⟨b, g'⟩, hres⟩ := Solve_isSome 82 emptyGrid
    (Nat.lt_of_le_of_lt (zeroCount_le emptyGrid) (by decide))
  cases b with
  | false =>
    exact absurd ⟨solvedGrid, solvedGrid_solved, fun r c h0 => absurd rfl h0⟩
      (Solve_completeRec 82 emptyGrid g' hres)
  | true =>
    obtain ⟨_, hz, hc⟩ := Solve_soundRec 82 emptyGrid g' hres
    exact ⟨g', hres, solved_of_consistent g' (hc ((Validate_eq_none_iff emptyGrid).1 hv)) hz⟩

/-- C15 (givens are preserved): whatever `Solve` returns, every cell that is
non-zero in the input grid holds the same value after the call; a cell whose
value differs after the call was zero in the input. -/
theorem Solve_preserves_givens (fuel : Nat) (g : Grid) (b : Bool) (g' : Grid)
    (h : Solve fuel g = some (b, g')) :
    (∀ r c, g r c ≠ 0 → g' r c = g r c) ∧ (∀ r c, g' r c ≠ g r c → g r c = 0) := by
  have ha := Solve_agrees fuel g b g' h
  refine ⟨ha, fun r c hne => ?_⟩
  by_contra h0
  exact hne (ha r c h0)

set_option maxRecDepth 100000 in
theorem Solve_preserves_givens_witness :
    ∃ g', Solve 3 nearlySolvedGrid = some (true, g') ∧
      (∀ r c, nearlySolvedGrid r c ≠ 0 → g' r c = nearlySolvedGrid r c) ∧
      (∀ r c, g' r c ≠ nearlySolvedGrid r c → nearlySolvedGrid r c = 0) := by
  obtain ⟨g', hg'⟩ := exists_of_fst
    (by decide : (Solve 3 nearlySolvedGrid).map Prod.fst = some true)
  exact ⟨g', hg', Solve_preserves_givens 3 nearlySolvedGrid true g' hg'⟩

/-! ## Legal candidates and the next empty cell -/

theorem div3_boxOf (row col : Fin size) : div3 (boxOf row col) = div3 row := by
  revert row col
  decide

theorem mod3_boxOf (row col : Fin size) : mod3 (boxOf row col) = div3 col := by
  revert row col
  decide

/-- C17 (candidate legality): `isValid(row, col, num)` is true if and only if
`num` occurs in no cell of the row, in no cell of the column and in no cell of
the box of `(row, col)`, that box being the list of cells that `validateBox`
scans for the box index `(row/3)*3 + col/3`, which contains `(row, col)`. -/
theorem isValid_legal (g : Grid) (row col : Fin size) (num : Int) :
    (isValid g row col num = true ↔
      (∀ c, g row c ≠ num) ∧ (∀ r, g r col ≠ num) ∧
        ∀ p ∈ boxCells (div3 (boxOf row col)) (mod3 (boxOf row col)), g p.1 p.2 ≠ num) ∧
      (row, col) ∈ boxCells (div3 (boxOf row col)) (mod3 (boxOf row col)) ∧
      validateBox g (boxOf row col) =
        validateBoxLoop g (boxOf row col)
          (boxCells (div3 (boxOf row col)) (mod3 (boxOf row col))) [] := by
  rw [div3_boxOf, mod3_boxOf]
  refine ⟨?_, (mem_boxCells_div3 row col row col).2 ⟨rfl, rfl⟩, ?_⟩
  · rw [isValid_iff]
    constructor
    · rintro ⟨h1, h2, h3⟩
      exact ⟨h1, h2, fun p hp => h3 p.1 p.2 ((mem_boxCells_div3 row col p.1 p.2).1 hp)⟩
    · rintro ⟨h1, h2, h3⟩
      exact ⟨h1, h2, fun r' c' hb => h3 (r', c') ((mem_boxCells_div3 row col r' c').2 hb)⟩
  · unfold validateBox
    rw [div3_boxOf, mod3_boxOf]

/-- C20 (next empty cell): `findEmptyCell` returns `(-1, -1)` if and only if
the grid has no zero cell; otherwise it returns the coordinates, both in
`0..8`, of a zero cell before which, in row-major order, every cell is
non-zero. -/
theorem findEmptyCell_spec (g : Grid) :
    (findEmptyCell g = (-1, -1) ↔ ∀ r c, g r c ≠ 0) ∧
      (findEmptyCell g ≠ (-1, -1) →
        ∃ r c : Fin size, findEmptyCell g = ((r.val : Int), (c.val : Int)) ∧ g r c = 0 ∧
          ∀ r' c', Before r' c' r c → g r' c' ≠ 0) := by
  rcases findEmptyCell_cases g with ⟨hf, hz⟩ | ⟨r, c, hf, h0, hb⟩
  · exact ⟨⟨fun _ => hz, fun _ => hf⟩, fun h => absurd hf h⟩
  · refine ⟨⟨fun h => ?_, fun h => absurd h0 (h r c)⟩, fun _ => ⟨r, c, hf, h0, hb⟩⟩
    rw [hf] at h
    have := congrArg Prod.fst h
    simp only at this
    omega

theorem findEmptyCell_spec_witness :
    ∃ r c : Fin size, findEmptyCell deadEndGrid = ((r.val : Int), (c.val : Int)) ∧
      deadEndGrid r c = 0 ∧ ∀ r' c', Before r' c' r c → deadEndGrid r' c' ≠ 0 :=
  (findEmptyCell_spec deadEndGrid).2 (by decide)

/-! ## What the errors of the validator report -/

theorem firstDup_eq_some {α : Type} (f : α → Int) (cells : List α) (hnd : cells.Nodup)
    (seen : List Int) (v : Int) (h : firstDup (cells.map f) seen = some v) :
    v ≠ 0 ∧ ∃ x ∈ cells, f x = v ∧ (v ∈ seen ∨ ∃ y ∈ cells, y ≠ x ∧ f y = v) := by
  induction cells generalizing seen with
  | nil => simp [firstDup] at h
  | cons a rest ih =>
    have hnd' := (List.nodup_cons.1 hnd).2
    have ha : a ∉ rest := (List.nodup_cons.1 hnd).1
    simp only [List.map_cons, firstDup] at h
    by_cases h0 : f a = 0
    · rw [if_pos h0] at h
      obtain ⟨hv, x, hx, hfx, hor⟩ := ih hnd' seen h
      refine ⟨hv, x, List.mem_cons_of_mem _ hx, hfx, ?_⟩
      rcases hor with hs | ⟨y, hy, hyx, hfy⟩
      · exact Or.inl hs
      · exact Or.inr ⟨y, List.mem_cons_of_mem _ hy, hyx, hfy⟩
    · rw [if_neg h0] at h
      by_cases hs : f a ∈ seen
      · rw [if_pos hs] at h
        have hv : f a = v := Option.some.inj h
        exact ⟨hv ▸ h0, a, List.mem_cons_self _ _, hv, Or.inl (hv ▸ hs)⟩
      · rw [if_neg hs] at h
        obtain ⟨hv, x, hx, hfx, hor⟩ := ih hnd' (f a :: seen) h
        refine ⟨hv, x, List.mem_cons_of_mem _ hx, hfx, ?_⟩
        rcases hor with hs' | ⟨y, hy, hyx, hfy⟩
        · rcases List.mem_cons.1 hs' with he | hs''
          · exact Or.inr ⟨a, List.mem_cons_self _ _, fun e => ha (e ▸ hx), he.symm⟩
          · exact Or.inl hs''
        · exact Or.inr ⟨y, List.mem_cons_of_mem _ hy, hyx, hfy⟩

theorem validateRowLoop_eq_some (g : Grid) (row : Fin size) (cols : List (Fin size))
    (hnd : cols.Nodup) (seen : List Int) (e : ValidateError)
    (h : validateRowLoop g row cols seen = some e) :
    (∃ c ∈ cols, e = ValidateError.invalidNumber (g row c) row.val c.val ∧ g row c ≠ 0 ∧
        (g row c < 1 ∨ 9 < g row c)) ∨
      ∃ v, e = ValidateError.duplicateRow v row.val ∧ v ≠ 0 ∧
        ∃ c ∈ cols, g row c = v ∧ (v ∈ seen ∨ ∃ c' ∈ cols, c' ≠ c ∧ g row c' = v) := by
  induction cols generalizing seen with
  | nil => simp [validateRowLoop] at h
  | cons a rest ih =>
    have hnd' := (List.nodup_cons.1 hnd).2
    have ha : a ∉ rest := (List.nodup_cons.1 hnd).1
    have lift : ((∃ c ∈ rest, e = ValidateError.invalidNumber (g row c) row.val c.val ∧
          g row c ≠ 0 ∧ (g row c < 1 ∨ 9 < g row c)) ∨
        ∃ v, e = ValidateError.duplicateRow v row.val ∧ v ≠ 0 ∧
          ∃ c ∈ rest, g row c = v ∧ (v ∈ seen ∨ ∃ c' ∈ rest, c' ≠ c ∧ g row c' = v)) →
        ((∃ c ∈ a :: rest, e = ValidateError.invalidNumber (g row c) row.val c.val ∧
          g row c ≠ 0 ∧ (g row c < 1 ∨ 9 < g row c)) ∨
        ∃ v, e = ValidateError.duplicateRow v row.val ∧ v ≠ 0 ∧
          ∃ c ∈ a :: rest, g row c = v ∧
            (v ∈ seen ∨ ∃ c' ∈ a :: rest, c' ≠ c ∧ g row c' = v)) := by
      rintro (⟨c, hc, hrest⟩ | ⟨v, he, hv, c, hc, hgc, hor⟩)
      · exact Or.inl ⟨c, List.mem_cons_of_mem _ hc, hrest⟩
      · refine Or.inr ⟨v, he, hv, c, List.mem_cons_of_mem _ hc, hgc, ?_⟩
        rcases hor with hs | ⟨c', hc', hne, hgc'⟩
        · exact Or.inl hs
        · exact Or.inr ⟨c', List.mem_cons_of_mem _ hc', hne, hgc'⟩
    simp only [validateRowLoop] at h
    by_cases h0 : g row a = 0
    · rw [if_pos h0] at h
      exact lift (ih hnd' seen h)
    · rw [if_neg h0] at h
      by_cases hr : g row a < 1 ∨ g row a > (size : Int)
      · rw [if_pos hr] at h
        left
        refine ⟨a, List.mem_cons_self _ _, (Option.some.inj h).symm, h0, ?_⟩
        simp only [size, Nat.cast_ofNat] at hr
        omega
      · rw [if_neg hr] at h
        by_cases hs : g row a ∈ seen
        · rw [if_pos hs] at h
          right
          exact ⟨g row a, (Option.some.inj h).symm, h0, a, List.mem_cons_self _ _, rfl,
            Or.inl hs⟩
        · rw [if_neg hs] at h
          rcases ih hnd' (g row a :: seen) h with ⟨c, hc, hrest⟩ |
            ⟨v, he, hv, c, hc, hgc, hor⟩
          · exact Or.inl ⟨c, List.mem_cons_of_mem _ hc, hrest⟩
          · refine Or.inr ⟨v, he, hv, c, List.mem_cons_of_mem _ hc, hgc, ?_⟩
            rcases hor with hs' | ⟨c', hc', hne, hgc'⟩
            · rcases List.mem_cons.1 hs' with hva | hs''
              · exact Or.inr ⟨a, List.mem_cons_self _ _, fun e' => ha (e' ▸ hc), hva.symm⟩
              · exact Or.inl hs''
            · exact Or.inr ⟨c', List.mem_cons_of_mem _ hc', hne, hgc'⟩

theorem validateRow_reported (g : Grid) (row : Fin size) (e : ValidateError)
    (h : validateRow g row = some e) : Reported g e := by
  unfold validateRow at h
  rcases validateRowLoop_eq_some g row indices nodup_indices [] e h with
    ⟨c, _, he, h0, hr⟩ | ⟨v, he, hv, c, _, hgc, hor⟩
  · rw [he]
    exact ⟨row, c, rfl, rfl, rfl, h0, hr⟩
  · rw [he]
    rcases hor with hs | ⟨c', _, hne, hgc'⟩
    · exact absurd hs (List.not_mem_nil _)
    · exact ⟨hv, row, c, c', rfl, fun e' => hne e'.symm, hgc, hgc'⟩

theorem validateColumn_reported (g : Grid) (col : Fin size) (e : ValidateError)
    (h : validateColumn g col = some e) : Reported g e := by
  unfold validateColumn at h
  rw [validateColumnLoop_eq] at h
  obtain ⟨v, hfd, he⟩ := Option.map_eq_some'.1 h
  obtain ⟨hv, r, _, hgr, hor⟩ :=
    firstDup_eq_some (fun r => g r col) indices nodup_indices [] v hfd
  rw [← he]
  rcases hor with hs | ⟨r', _, hne, hgr'⟩
  · exact absurd hs (List.not_mem_nil _)
  · exact ⟨hv, col, r, r', rfl, fun e' => hne e'.symm, hgr, hgr'⟩

theorem validateBox_reported (g : Grid) (b : Fin size) (e : ValidateError)
    (h : validateBox g b = some e) : Reported g e := by
  unfold validateBox at h
  rw [validateBoxLoop_eq] at h
  obtain ⟨v, hfd, he⟩ := Option.map_eq_some'.1 h
  obtain ⟨hv, p, hp, hgp, hor⟩ :=
    firstDup_eq_some (fun p : Fin size × Fin size => g p.1 p.2) _ (nodup_boxCells _ _) [] v hfd
  rw [← he]
  rcases hor with hs | ⟨q, hq, hne, hgq⟩
  · exact absurd hs (List.not_mem_nil _)
  · obtain ⟨r, c⟩ := p
    obtain ⟨r', c'⟩ := q
    have hp' := (mem_boxCells _ _ r c).1 hp
    have hq' := (mem_boxCells _ _ r' c').1 hq
    simp only [div3, mod3] at hp' hq'
    refine ⟨hv, r, c, r', c', fun e' => hne e'.symm, ?_, ?_, ?_, ?_, hgp, hgq⟩
    · omega
    · omega
    · omega
    · omega

theorem ValidateLoop_eq_some (g : Grid) (l : List (Fin size)) (e : ValidateError)
    (h : ValidateLoop g l = some e) :
    ∃ i ∈ l, validateRow g i = some e ∨ validateColumn g i = some e ∨
      validateBox g i = some e := by
  induction l with
  | nil => simp [ValidateLoop] at h
  | cons i rest ih =>
    simp only [ValidateLoop] at h
    cases hr : validateRow g i with
    | some e' =>
      rw [hr] at h
      exact ⟨i, List.mem_cons_self _ _, Or.inl (by rw [hr]; exact h)⟩
    | none =>
      rw [hr] at h
      cases hc : validateColumn g i with
      | some e' =>
        rw [hc] at h
        exact ⟨i, List.mem_cons_self _ _, Or.inr (Or.inl (by rw [hc]; exact h))⟩
      | none =>
        rw [hc] at h
        cases hb : validateBox g i with
        | some e' =>
          rw [hb] at h
          exact ⟨i, List.mem_cons_self _ _, Or.inr (Or.inr (by rw [hb]; exact h))⟩
        | none =>
          rw [hb] at h
          obtain ⟨j, hj, hor⟩ := ih h
          exact ⟨j, List.mem_cons_of_mem _ hj, hor⟩

theorem Validate_reported (g : Grid) (e : ValidateError) (h : Validate g = some e) :
    Reported g e := by
  obtain ⟨i, _, hr | hc | hb⟩ := ValidateLoop_eq_some g indices e h
  · exact validateRow_reported g i e hr
  · exact validateColumn_reported g i e hc
  · exact validateBox_reported g i e hb

/-- C19 (the reported violation is real): if `Validate` returns a duplicate
error naming a value and a row (a column, a box), the value is non-zero and is
held by two different cells of that row (column, box with top-left cell
`(3*boxRow, 3*boxCol)`); if it returns the invalid-number error naming `num` at
a position, the grid holds `num` there, and `num` is non-zero and outside
`[1,9]`. -/
theorem Validate_error_is_real (g : Grid) (e : ValidateError)
    (h : Validate g = some e) : Reported g e :=
  Validate_reported g e h

theorem Validate_error_is_real_witness :
    Reported repeatedTenGrid (ValidateError.duplicateColumn 10 0) :=
  Validate_error_is_real repeatedTenGrid (ValidateError.duplicateColumn 10 0) (by decide)

/-- C18 as stated fails: `repeatedTenGrid` holds the out-of-range value `10`,
and `Validate` returns the duplicate error of column 0, which is checked before
rows one and two. -/
theorem Validate_range_kind_counterexample :
    (∃ r c, repeatedTenGrid r c ≠ 0 ∧ (repeatedTenGrid r c < 1 ∨ 9 < repeatedTenGrid r c)) ∧
      Validate repeatedTenGrid = some (ValidateError.duplicateColumn 10 0) :=
  ⟨⟨1, 0, by decide, Or.inr (by decide)⟩, by decide⟩

/-- C18, amended (range error kind): on a grid in which some non-zero cell
value lies outside `[1,9]`, `Validate` returns an error; it is the
invalid-number error whenever no row, column or box holds the same non-zero
value at two different cells. -/
theorem Validate_range_error (g : Grid)
    (hout : ∃ r c, g r c ≠ 0 ∧ (g r c < 1 ∨ 9 < g r c)) :
    (∃ e, Validate g = some e) ∧
      (RowsDistinct g ∧ ColsDistinct g ∧ BoxesDistinct g →
        ∃ num row col, Validate g = some (ValidateError.invalidNumber num row col)) := by
  have hsome : ∃ e, Validate g = some e := by
    cases hr : Validate g with
    | some e => exact ⟨e, rfl⟩
    | none =>
      obtain ⟨r, c, h0, hrange⟩ := hout
      have := ((Validate_eq_none_iff g).1 hr).1 r c h0
      omega
  refine ⟨hsome, ?_⟩
  rintro ⟨hrow, hcol, hbox⟩
  obtain ⟨e, he⟩ := hsome
  have hrep := Validate_reported g e he
  cases e with
  | invalidNumber num row col => exact ⟨num, row, col, he⟩
  | duplicateRow v row =>
    obtain ⟨hv, r, c, c', _, hne, h1, h2⟩ := hrep
    exact absurd (h1.trans h2.symm) (hrow r c c' hne (h1 ▸ hv))
  | duplicateColumn v col =>
    obtain ⟨hv, c, r, r', _, hne, h1, h2⟩ := hrep
    exact absurd (h1.trans h2.symm) (hcol c r r' hne (h1 ▸ hv))
  | duplicateBox v br bc =>
    obtain ⟨hv, r, c, r', c', hne, hr, hc, hr', hc', h1, h2⟩ := hrep
    have hsame : SameBox r c r' c' := by
      unfold SameBox
      omega
    exact absurd (h1.trans h2.symm) (hbox r c r' c' hne hsame (h1 ▸ hv))

theorem tooLargeGrid_single (r c : Fin size) (h : tooLargeGrid r c ≠ 0) :
    (r, c) = (0, 0) := by
  revert r c
  decide

theorem tooLargeGrid_distinct (r c r' c' : Fin size) (hne : (r, c) ≠ (r', c'))
    (h0 : tooLargeGrid r c ≠ 0) : tooLargeGrid r c ≠ tooLargeGrid r' c' := by
  intro heq
  have h1 := tooLargeGrid_single r c h0
  have h2 := tooLargeGrid_single r' c' (heq ▸ h0)
  exact hne (h1.trans h2.symm)

theorem Validate_range_error_witness :
    ∃ num row col, Validate tooLargeGrid = some (ValidateError.invalidNumber num row col) :=
  (Validate_range_error tooLargeGrid ⟨0, 0, by decide, Or.inr (by decide)⟩).2
    ⟨fun r c c' hne h0 => tooLargeGrid_distinct r c r c' (fun e => hne (congrArg Prod.snd e)) h0,
      fun c r r' hne h0 => tooLargeGrid_distinct r c r' c (fun e => hne (congrArg Prod.fst e)) h0,
      fun r c r' c' hne _ h0 => tooLargeGrid_distinct r c r' c' hne h0⟩

/-! ## Grids with a duplicate given -/

set_option maxRecDepth 100000 in
/-- C12 (a duplicate in a row), evaluated on the code: the first row of
`duplicateRowGrid` holds `5` in its first two cells, and `Solve`, called
without `Validate`, returns true on it: it writes `7` and `9` into the two
zero cells and leaves the two `5`s in place, so the grid it reports as solved
is not a legal solution. -/
theorem Solve_accepts_duplicate_row :
    (∃ r c c', c ≠ c' ∧ duplicateRowGrid r c ≠ 0 ∧
        duplicateRowGrid r c = duplicateRowGrid r c') ∧
      ∃ g', Solve 82 duplicateRowGrid = some (true, g') ∧
        g' 0 0 = 5 ∧ g' 0 1 = 5 ∧ g' 8 7 = 7 ∧ g' 8 8 = 9 ∧ ¬ Solved g' := by
  refine ⟨⟨0, 0, 1, by decide, by decide, by decide⟩, ?_⟩
  have h : (Solve 82 duplicateRowGrid).map
      (fun p => (p.1, p.2 0 0, p.2 0 1, p.2 8 7, p.2 8 8)) = some (true, 5, 5, 7, 9) := by
    decide
  cases hs : Solve 82 duplicateRowGrid with
  | none => rw [hs] at h; cases h
  | some res =>
    obtain ⟨b, g'⟩ := res
    rw [hs] at h
    simp only [Option.map_some', Option.some.injEq, Prod.mk.injEq] at h
    obtain ⟨hb, h00, h01, h87, h88⟩ := h
    subst hb
    exact ⟨g', rfl, h00, h01, h87, h88,
      fun hsol => hsol.2.2.1 0 0 1 (by decide) (by rw [h00, h01])⟩

/-! ## The grids on which the search is called -/

/-- The candidate loop depends on the recursive call only through its results
on the grids obtained by writing a legal candidate into the cell. -/
theorem solveLoop_congr (rec rec' : Grid → Option (Bool × Grid)) (hres : Restores rec)
    (r c : Fin size) (g : Grid) (h0 : g r c = 0) (nums : List Int)
    (hagree : ∀ num ∈ nums, isValid g r c num = true →
      rec' (g.set r c num) = rec (g.set r c num)) :
    solveLoop rec' r c nums g = solveLoop rec r c nums g := by
  induction nums with
  | nil => rfl
  | cons num rest ih =>
    have hrest : ∀ n ∈ rest, isValid g r c n = true →
        rec' (g.set r c n) = rec (g.set r c n) :=
      fun n hn => hagree n (List.mem_cons_of_mem _ hn)
    rw [solveLoop_cons rec hres r c g h0]
    conv_lhs => unfold solveLoop
    by_cases hv : isValid g r c num = true
    · rw [if_pos hv, if_pos hv, hagree num (List.mem_cons_self _ _) hv]
      cases hr : rec (g.set r c num) with
      | none => rfl
      | some res =>
        obtain ⟨b, x'⟩ := res
        cases b with
        | true => rfl
        | false =>
          have hx := hres _ _ hr
          subst hx
          simp only [set_set_zero g r c num h0]
          exact ih hrest
    · rw [if_neg hv, if_neg hv]
      exact ih hrest

theorem SolveChecked_eq (fuel : Nat) (g : Grid) (hv : Validate g = none) :
    SolveChecked fuel g = Solve fuel g := by
  induction fuel generalizing g with
  | zero => rfl
  | succ n ih =>
    rcases findEmptyCell_cases g with ⟨hf, _⟩ | ⟨r, c, hf, h0, _⟩
    · rw [Solve_full n g hf]
      simp [SolveChecked, hv, hf]
    · have hne : ¬ ((r.val : Int) = -1 ∧ (c.val : Int) = -1) := by omega
      have hstep : SolveChecked (n + 1) g = solveLoop (SolveChecked n) r c candidates g := by
        simp only [SolveChecked, hv, hf, hne, if_true, if_false, toIndex_val]
      rw [hstep, Solve_step n g r c hf]
      apply solveLoop_congr _ _ (Solve_restores n) r c g h0
      intro num hnum hvalid
      exact ih _ ((Validate_eq_none_iff _).2
        (consistent_set g r c num ((Validate_eq_none_iff g).1 hv)
          (candidates_range num hnum) hvalid))

/-- C14 (search invariant): on a grid that `Validate` accepts, writing a
candidate `num` in `1..9` for which `isValid` is true into a zero cell gives a
grid that `Validate` accepts, and so does resetting that cell to zero; hence
`Solve` is unchanged when every call, at every depth, is first checked to be
on a grid that `Validate` accepts. -/
theorem search_invariant (g : Grid) (hv : Validate g = none) :
    (∀ row col num, g row col = 0 → 1 ≤ num ∧ num ≤ 9 → isValid g row col num = true →
        Validate (g.set row col num) = none ∧
          Validate ((g.set row col num).set row col 0) = none) ∧
      ∀ fuel, SolveChecked fuel g = Solve fuel g := by
  refine ⟨fun row col num h0 hnum hvalid => ⟨?_, ?_⟩, fun fuel => SolveChecked_eq fuel g hv⟩
  · exact (Validate_eq_none_iff _).2
      (consistent_set g row col num ((Validate_eq_none_iff g).1 hv) hnum hvalid)
  · rw [set_set_zero g row col num h0]
    exact hv

set_option maxRecDepth 100000 in
theorem search_invariant_witness :
    Validate (nearlySolvedGrid.set 8 7 7) = none ∧
      Validate ((nearlySolvedGrid.set 8 7 7).set 8 7 0) = none :=
  (search_invariant nearlySolvedGrid (by decide)).1 8 7 7 (by decide) (by decide) (by decide)

/-! ## The first solution found is the least one -/

theorem solveLoop_first (rec : Grid → Option (Bool × Grid)) (hres : Restores rec)
    (r c : Fin size) (g : Grid) (h0 : g r c = 0) (nums : List Int) (g' : Grid)
    (h : solveLoop rec r c nums g = some (true, g')) :
    ∃ pre num post, nums = pre ++ num :: post ∧ isValid g r c num = true ∧
      rec (g.set r c num) = some (true, g') ∧
      ∀ n ∈ pre, isValid g r c n = true → ∃ x, rec (g.set r c n) = some (false, x) := by
  induction nums with
  | nil => simp [solveLoop] at h
  | cons num rest ih =>
    rw [solveLoop_cons rec hres r c g h0] at h
    by_cases hv : isValid g r c num = true
    · rw [if_pos hv] at h
      cases hr : rec (g.set r c num) with
      | none => rw [hr] at h; cases h
      | some res =>
        obtain ⟨b, x'⟩ := res
        cases b with
        | true =>
          rw [hr] at h
          simp only [Option.some.injEq, Prod.mk.injEq, true_and] at h
          subst h
          exact ⟨[], num, rest, rfl, hv, hr, fun n hn => absurd hn (List.not_mem_nil _)⟩
        | false =>
          rw [hr] at h
          obtain ⟨pre, m, post, hsplit, hm, hrm, hpre⟩ := ih h
          refine ⟨num :: pre, m, post, by rw [hsplit]; rfl, hm, hrm, ?_⟩
          intro n hn hnv
          rcases List.mem_cons.1 hn with he | hn'
          · exact ⟨x', he ▸ hr⟩
          · exact hpre n hn' hnv
    · rw [if_neg hv] at h
      obtain ⟨pre, m, post, hsplit, hm, hrm, hpre⟩ := ih h
      refine ⟨num :: pre, m, post, by rw [hsplit]; rfl, hm, hrm, ?_⟩
      intro n hn hnv
      rcases List.mem_cons.1 hn with he | hn'
      · exact absurd (he ▸ hnv) hv
      · exact hpre n hn' hnv

theorem candidates_sorted : candidates.Pairwise (fun a b => a < b) := by decide

theorem Solve_leastRec (fuel : Nat) : LeastRec (Solve fuel) := by
  induction fuel with
  | zero => intro x x' h; simp [Solve] at h
  | succ n ih =>
    intro x x' h w hw ha
    have hax : Agrees x x' := Solve_agrees (n + 1) x true x' h
    rcases findEmptyCell_cases x with ⟨hf, hz⟩ | ⟨r, c, hf, h0, hb⟩
    · rw [Solve_full n x hf] at h
      simp only [Option.some.injEq, Prod.mk.injEq, true_and] at h
      subst h
      exact Or.inl (fun r c => (ha r c (hz r c)).symm)
    · rw [Solve_step n x r c hf] at h
      obtain ⟨pre, num, post, hsplit, _, hrec, hpre⟩ :=
        solveLoop_first _ (Solve_restores n) r c x h0 _ x' h
      have hmem : w r c ∈ candidates := mem_candidates _ (hw.2.1 r c)
      have hwv : isValid x r c (w r c) = true := isValid_of_completion x w r c hw ha h0
      have hwa : Agrees (x.set r c (w r c)) w := agrees_set_completion x w r c ha
      rw [hsplit] at hmem
      rcases List.mem_append.1 hmem with hp | hp
      · obtain ⟨y, hy⟩ := hpre _ hp hwv
        exact absurd ⟨w, hw, hwa⟩ (Solve_completeRec n _ y hy)
      · rcases List.mem_cons.1 hp with he | hpost
        · exact ih _ _ hrec w hw (he ▸ hwa)
        · have hsorted := candidates_sorted
          rw [hsplit] at hsorted
          have hlt : num < w r c :=
            (List.pairwise_cons.1 (List.pairwise_append.1 hsorted).2.1).1 _ hpost
          have hnum : num ∈ candidates := by
            rw [hsplit]
            exact List.mem_append_right _ (List.mem_cons_self _ _)
          have hnz : num ≠ 0 := by
            have := candidates_range num hnum
            omega
          have hcell : x' r c = num := by
            have := (Solve_soundRec n _ _ hrec).1 r c (by rw [set_same]; exact hnz)
            rw [this, set_same]
          refine Or.inr ⟨r, c, by rw [hcell]; exact hlt, fun r' c' hbefore => ?_⟩
          have hx0 := hb r' c' hbefore
          rw [hax r' c' hx0, ha r' c' hx0]

theorem lex_of_first_difference (l₁ l₂ : List Int) (hlen : l₁.length = l₂.length)
    (k : Nat) (hk : k < l₁.length) (hlt : l₁.getD k 0 < l₂.getD k 0)
    (heq : ∀ i, i < k → l₁.getD i 0 = l₂.getD i 0) :
    List.Lex (fun a b : Int => a < b) l₁ l₂ := by
  induction l₁ generalizing l₂ k with
  | nil => simp at hk
  | cons a t ih =>
    cases l₂ with
    | nil => simp at hlen
    | cons b u =>
      cases k with
      | zero => exact List.Lex.rel (by simpa using hlt)
      | succ j =>
        have hab : a = b := by simpa using heq 0 (Nat.succ_pos j)
        subst hab
        apply List.Lex.cons
        apply ih u (by simpa using hlen) j (by simpa using hk)
        · simpa using hlt
        · intro i hi
          simpa using heq (i + 1) (Nat.succ_lt_succ hi)

theorem rowMajor_eq (g : Grid) :
    rowMajor g = (List.finRange 81).map (fun i => g (rowOf i.val i.isLt) (colOf i.val)) :=
  rowMajor_map (fun r c => g r c)

theorem rowMajor_length (g : Grid) : (rowMajor g).length = 81 := by
  rw [rowMajor_eq]
  simp

theorem rowMajor_getD (g : Grid) (k : Nat) (hk : k < 81) :
    (rowMajor g).getD k 0 = g (rowOf k hk) (colOf k) := by
  rw [rowMajor_eq, List.getD_eq_getElem _ _ (by simpa using hk)]
  simp

theorem lexLE_of_cellLE (g h : Grid) (hle : CellLE g h) : LexLE g h := by
  rcases hle with heq | ⟨r, c, hlt, hbefore⟩
  · left
    have : g = h := funext (fun r => funext (fun c => heq r c))
    rw [this]
  · right
    have hr := r.isLt
    have hc := c.isLt
    simp only [size] at hr hc
    have hk : r.val * 9 + c.val < 81 := by omega
    have hrow : rowOf (r.val * 9 + c.val) hk = r := Fin.ext (by simp only [rowOf]; omega)
    have hcol : colOf (r.val * 9 + c.val) = c := Fin.ext (by simp only [colOf]; omega)
    apply lex_of_first_difference _ _ (by rw [rowMajor_length, rowMajor_length])
      (r.val * 9 + c.val) (by rw [rowMajor_length]; exact hk)
    · rw [rowMajor_getD g _ hk, rowMajor_getD h _ hk, hrow, hcol]
      exact hlt
    · intro i hi
      have hi' : i < 81 := by omega
      rw [rowMajor_getD g _ hi', rowMajor_getD h _ hi']
      apply hbefore
      unfold Before
      by_cases hq : i / 9 < r.val
      · exact Or.inl (Fin.lt_def.2 (by simp only [rowOf]; exact hq))
      · refine Or.inr ⟨Fin.ext (by simp only [rowOf]; omega),
          Fin.lt_def.2 (by simp only [colOf]; omega)⟩

/-- C16 (the first solution found is the least one): on a grid that `Validate`
accepts and that has a legal completion, `Solve` returns true and the grid it
leaves is a legal completion of the input whose row-major flattening is
lexicographically at most that of every legal completion; when the completion
is unique, `Solve` leaves exactly that one. -/
theorem Solve_least (g : Grid) (hv : Validate g = none)
    (hex : ∃ h, Solved h ∧ Agrees g h) (fuel : Nat) (hf : zeroCount g < fuel) :
    ∃ g', Solve fuel g = some (true, g') ∧ Solved g' ∧ Agrees g g' ∧
      (∀ h, Solved h → Agrees g h → LexLE g' h) ∧
      (∀ h, Solved h → Agrees g h → (∀ h', Solved h' → Agrees g h' → h' = h) → g' = h) := by
  obtain ⟨⟨b, g'⟩, hres⟩ := Solve_isSome fuel g hf
  cases b with
  | false => exact absurd hex (Solve_completeRec fuel g g' hres)
  | true =>
    obtain ⟨ha, hz, hc⟩ := Solve_soundRec fuel g g' hres
    have hs : Solved g' := solved_of_consistent g' (hc ((Validate_eq_none_iff g).1 hv)) hz
    exact ⟨g', hres, hs, ha,
      fun h hsh hah => lexLE_of_cellLE g' h (Solve_leastRec fuel g g' hres h hsh hah),
      fun h _ _ huniq => huniq g' hs ha⟩

theorem nearlySolved_agrees : Agrees nearlySolvedGrid solvedGrid := by
  intro r c
  revert r c
  decide

set_option maxRecDepth 100000 in
theorem Solve_least_witness :
    ∃ g', Solve 3 nearlySolvedGrid = some (true, g') ∧ Solved g' ∧
      Agrees nearlySolvedGrid g' ∧
      (∀ h, Solved h → Agrees nearlySolvedGrid h → LexLE g' h) ∧
      (∀ h, Solved h → Agrees nearlySolvedGrid h →
        (∀ h', Solved h' → Agrees nearlySolvedGrid h' → h' = h) → g' = h) :=
  Solve_least nearlySolvedGrid (by decide) ⟨solvedGrid, solvedGrid_solved, nearlySolved_agrees⟩
    3 (by decide)

end Sudoku
